import Mathlib

/-!
Verification development for the gtfsparser feed parser (`feed.go`).

The Go source is embedded shallowly:

* Go `float32` distance values appear in the code only in order comparisons
  (`max > dist`), so they are modelled as `Int`; the initial running maximum
  `float32(math.Inf(-1))` is modelled as `none : Option Int` (`-Inf` compares
  greater than nothing).
* Go maps keyed by strings are modelled as association lists in insertion
  order (Go's randomized iteration order is replaced by this deterministic
  one); map values that can be `nil` pointers are modelled as `Option`.
* The `panic`/`recover` idiom of the per-file parsers is modelled by `Except`
  results; an unrecovered runtime panic (index out of range in the
  consistency checks, nil-map-entry dereference) is a distinguished error.
* Go slice index arithmetic is kept exactly: loop indices are `Int`s and
  every slice access goes through `idx?`, which reports out-of-range access.
-/

/-- Mirrors `ParseOptions` (feed.go lines 21-25). -/
structure ParseOptions where
  UseDefValueOnError : Bool
  DropErroneous : Bool
  DryRun : Bool
deriving Repr, DecidableEq

/-- Comparison `max > d` where `max` is the running maximum initialised to
`-Inf` (modelled as `none`). `-Inf > d` is false for every `d`. -/
def maxGt : Option Int → Int → Bool
  | none, _ => false
  | some m, d => decide (m > d)

/-- Go slice access `l[i]` with an `Int` index: `none` signals the
out-of-range panic. -/
def idx? {α : Type} (l : List α) (i : Int) : Option α :=
  if i < 0 then none else l.get? i.toNat

/-- Mirrors `gtfs.ShapePoint` (fields used by `feed.go`): sequence number,
`shape_dist_traveled` and its presence flag. Coordinates are irrelevant to
the checks and carry defaults. -/
structure ShapePoint where
  Lat : Int := 0
  Lon : Int := 0
  Sequence : Int
  Dist_traveled : Int
  Has_dist : Bool
deriving Repr, DecidableEq

/-- Modelled from the spec: the accessor `HasDistanceTraveled` of the gtfs
entity package (not under src/) reports the "has distance" flag. -/
def ShapePoint.HasDistanceTraveled (p : ShapePoint) : Bool := p.Has_dist

/-- Modelled from the spec: a gtfs `Time` is either empty (absent) or a
number of seconds since midnight. `Empty()` and `SecondsSinceMidnight()`
are the two accessors `feed.go` uses. -/
structure Time where
  secs : Option Int
deriving Repr, DecidableEq

def Time.Empty (t : Time) : Bool := t.secs.isNone

/-- Only ever called by the source under a `!Empty()` guard; `0` is an
arbitrary value for the empty case. -/
def Time.SecondsSinceMidnight (t : Time) : Int := t.secs.getD 0

/-- Mirrors `gtfs.StopTime` (fields used by `feed.go`). -/
structure StopTime where
  StopId : String := ""
  Arrival_time : Time
  Departure_time : Time
  Sequence : Int
  Shape_dist_traveled : Int := 0
  Has_dist : Bool := false
deriving Repr, DecidableEq

/-- Modelled from the spec: same accessor as for shape points. -/
def StopTime.HasDistanceTraveled (st : StopTime) : Bool := st.Has_dist

/-- Mirrors `gtfs.Shape`: an id and its (file-ordered, later sorted) points. -/
structure Shape where
  Id : String
  Points : List ShapePoint
deriving Repr, DecidableEq

/-- Mirrors `gtfs.Trip` (fields used by the claims): references are kept as
ids, matching the spec's advice to model non-owning pointers as id lookups. -/
structure Trip where
  Id : String
  RouteId : String := ""
  ServiceId : String := ""
  ShapeId : Option String := none
  StopTimes : List StopTime := []
deriving Repr, DecidableEq

/-- Structured contents of the `errors.New` messages produced by the two
consistency checks (each names the parent id and the offending sequence
number). -/
inductive CheckErr
  | shapeDist (shapeId : String) (seq : Int)
  | stTemporal (tripId : String) (seq : Int)
  | stDist (tripId : String) (seq : Int)
deriving Repr, DecidableEq

/-- Result of a consistency check. `ok`/`fatal` carry the (in-place mutated)
sequence as it stands on return; `oob` is an out-of-range slice access,
i.e. an unrecovered Go runtime panic. -/
inductive CheckResult (α : Type)
  | ok (val : List α)
  | fatal (e : CheckErr) (val : List α)
  | oob
deriving Repr, DecidableEq

/-- Loop of `Feed.checkShapeMeasure` (feed.go lines 628-649), embedded with
explicit fuel (the loop performs at most one step per remaining `j <
len(points)` gap, so any fuel above `points.length` is adequate; the fuel-out
value is never reached from the wrapper below).

Go source, kept index-exact:
```
max := float32(math.Inf(-1))
deleted := 0
for j := 1; j < len(shape.Points); j++ {
    i := j - deleted
    if shape.Points[i-1].HasDistanceTraveled() { max = shape.Points[i-1].Dist_traveled }
    if shape.Points[i].HasDistanceTraveled() && max > shape.Points[i].Dist_traveled {
        if opt.UseDefValueOnError { reset dist of point i }
        else if opt.DropErroneous { remove point i; deleted++ }
        else { return error }
    }
}
```
-/
def checkShapeLoop (shapeId : String) (opt : ParseOptions) :
    Nat → List ShapePoint → Option Int → Nat → Nat → CheckResult ShapePoint
  | 0, points, _, _, _ => .ok points
  | fuel + 1, points, maxD, deleted, j =>
    if j < points.length then
      let i : Int := (j : Int) - (deleted : Int)
      match idx? points (i - 1) with
      | none => .oob
      | some prev =>
        let maxD := if prev.HasDistanceTraveled then some prev.Dist_traveled else maxD
        match idx? points i with
        | none => .oob
        | some cur =>
          if cur.HasDistanceTraveled && maxGt maxD cur.Dist_traveled then
            if opt.UseDefValueOnError then
              checkShapeLoop shapeId opt fuel
                (points.set i.toNat { cur with Dist_traveled := 0, Has_dist := false })
                maxD deleted (j + 1)
            else if opt.DropErroneous then
              checkShapeLoop shapeId opt fuel (points.eraseIdx i.toNat) maxD (deleted + 1) (j + 1)
            else .fatal (.shapeDist shapeId cur.Sequence) points
          else
            checkShapeLoop shapeId opt fuel points maxD deleted (j + 1)
    else .ok points

/-- `Feed.checkShapeMeasure` (feed.go lines 628-649). -/
def checkShapeMeasure (shape : Shape) (opt : ParseOptions) : CheckResult ShapePoint :=
  checkShapeLoop shape.Id opt (shape.Points.length + 1) shape.Points none 0 1

/-- The temporal condition of the stop-time check (feed.go line 657): both
times present and the previous departure strictly later than the current
arrival. -/
def stTempViol (prev0 cur0 : StopTime) : Bool :=
  !prev0.Departure_time.Empty && !cur0.Arrival_time.Empty &&
    decide (prev0.Departure_time.SecondsSinceMidnight >
      cur0.Arrival_time.SecondsSinceMidnight)

/-- Loop of `Feed.checkStopTimeMeasure` (feed.go lines 651-683): the temporal
check, then (on the possibly already compacted slice, at the same index `i`)
the distance check. Index arithmetic is kept exact; in particular after a
temporal drop the distance check re-reads `StopTimes[i-1]` and `StopTimes[i]`
from the compacted slice, where `i` may now be one past the end. -/
def checkStopTimeLoop (tripId : String) (opt : ParseOptions) :
    Nat → List StopTime → Option Int → Nat → Nat → CheckResult StopTime
  | 0, sts, _, _, _ => .ok sts
  | fuel + 1, sts, maxD, deleted, j =>
    if j < sts.length then
      let i : Int := (j : Int) - (deleted : Int)
      match idx? sts (i - 1) with
      | none => .oob
      | some prev0 =>
        match idx? sts i with
        | none => .oob
        | some cur0 =>
          let tempViol := stTempViol prev0 cur0
          if tempViol && !opt.DropErroneous then
            .fatal (.stTemporal tripId cur0.Sequence) sts
          else
            let sts1 := if tempViol then sts.eraseIdx i.toNat else sts
            let deleted1 := if tempViol then deleted + 1 else deleted
            match idx? sts1 (i - 1) with
            | none => .oob
            | some prev =>
              let maxD := if prev.HasDistanceTraveled then some prev.Shape_dist_traveled else maxD
              match idx? sts1 i with
              | none => .oob
              | some cur =>
                if cur.HasDistanceTraveled && maxGt maxD cur.Shape_dist_traveled then
                  if opt.UseDefValueOnError then
                    checkStopTimeLoop tripId opt fuel
                      (sts1.set i.toNat { cur with Shape_dist_traveled := 0, Has_dist := false })
                      maxD deleted1 (j + 1)
                  else if opt.DropErroneous then
                    checkStopTimeLoop tripId opt fuel (sts1.eraseIdx i.toNat) maxD
                      (deleted1 + 1) (j + 1)
                  else .fatal (.stDist tripId cur.Sequence) sts1
                else
                  checkStopTimeLoop tripId opt fuel sts1 maxD deleted1 (j + 1)
    else .ok sts

/-- `Feed.checkStopTimeMeasure` (feed.go lines 651-683). -/
def checkStopTimeMeasure (trip : Trip) (opt : ParseOptions) : CheckResult StopTime :=
  checkStopTimeLoop trip.Id opt (trip.StopTimes.length + 1) trip.StopTimes none 0 1

section Scratch

/-- Abbreviation: a shape point that declares distance `d` at sequence `s`. -/
def pt (s d : Int) : ShapePoint := { Sequence := s, Dist_traveled := d, Has_dist := true }

example :
    checkShapeMeasure ⟨"s", [pt 1 0, pt 2 5, pt 3 3, pt 4 4]⟩ ⟨false, true, false⟩ =
      .ok [pt 1 0, pt 2 5, pt 4 4] := by decide

example :
    checkShapeMeasure ⟨"s", [pt 1 0, pt 2 5, pt 3 3, pt 4 4]⟩ ⟨true, false, false⟩ =
      .ok [pt 1 0, pt 2 5,
        { Sequence := 3, Dist_traveled := 0, Has_dist := false },
        { Sequence := 4, Dist_traveled := 0, Has_dist := false }] := by decide

example :
    checkShapeMeasure ⟨"s", [pt 1 0, pt 2 5, pt 3 3]⟩ ⟨false, false, false⟩ =
      .fatal (.shapeDist "s" 3) [pt 1 0, pt 2 5, pt 3 3] := by decide

/-- Abbreviation: a stop-time with arrival `a`, departure `d`, sequence `s`. -/
def stt (s a d : Int) : StopTime :=
  { Arrival_time := ⟨some a⟩, Departure_time := ⟨some d⟩, Sequence := s }

example :
    checkStopTimeMeasure ⟨"t", "", "", none, [stt 1 0 100, stt 2 50 120]⟩ ⟨false, true, false⟩ =
      .oob := by decide

example :
    checkStopTimeMeasure ⟨"t", "", "", none, [stt 1 0 100, stt 2 50 120]⟩ ⟨true, false, false⟩ =
      .fatal (.stTemporal "t" 2) [stt 1 0 100, stt 2 50 120] := by decide

end Scratch

/-! ## The Feed aggregate and the parse pipeline

Go string-keyed maps are association lists in insertion order: `mInsert`
updates an existing key in place (keeping its position) or appends,
`mErase` removes a key, `mFind?` looks one up. -/

def mFind? {α : Type} : List (String × α) → String → Option α
  | [], _ => none
  | (k', v) :: rest, k => if k' = k then some v else mFind? rest k

def mInsert {α : Type} : List (String × α) → String → α → List (String × α)
  | [], k, v => [(k, v)]
  | (k', v') :: rest, k, v =>
    if k' = k then (k, v) :: rest else (k', v') :: mInsert rest k v

def mErase {α : Type} : List (String × α) → String → List (String × α)
  | [], _ => []
  | (k', v') :: rest, k => if k' = k then rest else (k', v') :: mErase rest k

def mKeys {α : Type} (m : List (String × α)) : List String := m.map Prod.fst

def mContains {α : Type} (m : List (String × α)) (k : String) : Bool :=
  (mFind? m k).isSome

abbrev StrMap (α : Type) := List (String × α)

/-- Mirrors `gtfs.Agency` (only the id matters to the claims). -/
structure Agency where
  Id : String
deriving Repr, DecidableEq

/-- Mirrors `gtfs.Stop`: the `Parent_station` pointer is modelled as the
referenced stop's id (`none` = nil pointer). -/
structure Stop where
  Id : String
  Parent_station : Option String := none
deriving Repr, DecidableEq

/-- Mirrors `gtfs.Route`; the agency pointer is kept as an id. -/
structure Route where
  Id : String
  AgencyId : Option String := none
deriving Repr, DecidableEq

/-- Mirrors `gtfs.Service`. -/
structure Service where
  Id : String
deriving Repr, DecidableEq

/-- Mirrors `gtfs.FareAttribute`. -/
structure FareAttribute where
  Id : String
deriving Repr, DecidableEq

/-- Mirrors `gtfs.Transfer` (stop pointers as ids). -/
structure Transfer where
  FromStopId : String
  ToStopId : String
deriving Repr, DecidableEq

/-- Mirrors `gtfs.FeedInfo` (src/gtfs/feedinfo.go), reduced to a tag. -/
structure FeedInfoE where
  Publisher_name : String := ""
deriving Repr, DecidableEq

/-- Mirrors the `Feed` aggregate (feed.go lines 27-42). Map values that Go
stores as pointers and nils out under dry run are `Option`-valued. -/
structure FeedState where
  Agencies : StrMap Agency := []
  Stops : StrMap Stop := []
  Routes : StrMap (Option Route) := []
  Trips : StrMap (Option Trip) := []
  Services : StrMap (Option Service) := []
  FareAttributes : StrMap FareAttribute := []
  Shapes : StrMap (Option Shape) := []
  Transfers : List Transfer := []
  FeedInfos : List FeedInfoE := []
deriving Repr, DecidableEq

/-- Mirrors `NewFeed` (feed.go lines 45-59). -/
def NewFeed : FeedState := {}

/-! ### Input records

The CSV reader and the per-entity materializers are outside src/; records
are therefore already field-keyed, and each carries an abstract validity
flag `ok` standing for the per-field validation the spec leaves mechanical
(§1, §4.3). -/

structure AgencyRec where
  id : String
  ok : Bool := true
deriving Repr, DecidableEq

structure FeedInfoRec where
  publisher : String := ""
  ok : Bool := true
deriving Repr, DecidableEq

structure StopRec where
  id : String
  parent_station : Option String := none
  ok : Bool := true
deriving Repr, DecidableEq

structure ShapeRec where
  shapeId : String
  seq : Int
  dist : Option Int := none
  ok : Bool := true
deriving Repr, DecidableEq

structure RouteRec where
  id : String
  agency : Option String := none
  ok : Bool := true
deriving Repr, DecidableEq

structure CalRec where
  serviceId : String
  ok : Bool := true
deriving Repr, DecidableEq

structure TripRec where
  id : String
  routeId : String
  serviceId : String
  shapeId : Option String := none
  ok : Bool := true
deriving Repr, DecidableEq

structure StopTimeRec where
  tripId : String
  stopId : String
  arr : Option Int := none
  dep : Option Int := none
  seq : Int
  dist : Option Int := none
  ok : Bool := true
deriving Repr, DecidableEq

structure FareAttrRec where
  id : String
  ok : Bool := true
deriving Repr, DecidableEq

structure FareRuleRec where
  fareId : String
  routeId : Option String := none
  ok : Bool := true
deriving Repr, DecidableEq

structure FreqRec where
  tripId : String
  ok : Bool := true
deriving Repr, DecidableEq

structure TransferRec where
  fromId : String
  toId : String
  ok : Bool := true
deriving Repr, DecidableEq

/-- A parse target: for each logical file either `none` (file absent) or
the list of its data records. -/
structure GtfsInput where
  agencyF : Option (List AgencyRec) := none
  feedInfoF : Option (List FeedInfoRec) := none
  stopsF : Option (List StopRec) := none
  shapesF : Option (List ShapeRec) := none
  routesF : Option (List RouteRec) := none
  calendarF : Option (List CalRec) := none
  calendarDatesF : Option (List CalRec) := none
  tripsF : Option (List TripRec) := none
  stopTimesF : Option (List StopTimeRec) := none
  fareAttrF : Option (List FareAttrRec) := none
  fareRuleF : Option (List FareRuleRec) := none
  frequenciesF : Option (List FreqRec) := none
  transfersF : Option (List TransferRec) := none
deriving Repr, DecidableEq

/-- Structured stand-in for the messages of recovered panics
(`ParseError.Message`). -/
inductive PMsg
  | fieldErr
  | noParent (stopId : String) (pid : String)
  | nilPointer
deriving Repr, DecidableEq

/-- Errors out of a parse stage: a missing required file, a recovered panic
rewrapped as a `ParseError` for a given file, an error returned by a
consistency check, or an unrecovered runtime panic escaping `Parse`. -/
inductive PErr
  | reqFile (name : String)
  | parseE (file : String) (m : PMsg)
  | check (e : CheckErr)
  | crash
deriving Repr, DecidableEq

/-! ### Materializers

The `create*` functions live outside src/ and are modelled from the spec
(§4.3-§4.4): each consumes a record plus cross-reference tables; a dangling
reference or an invalid field (the abstract `ok` flag) is a field error;
with `use_default_on_error` the offending field is defaulted and the entity
is still created, so creation then always succeeds. Side mutations the
claims never observe (fare rules appended to fare attributes, frequencies
appended to trips) are omitted. -/

/-- Modelled from the spec: `createAgency`. -/
def createAgency (r : AgencyRec) (opts : ParseOptions) : Option Agency :=
  if r.ok || opts.UseDefValueOnError then some ⟨r.id⟩ else none

/-- Modelled from the spec: `createFeedInfo`. -/
def createFeedInfo (r : FeedInfoRec) (opts : ParseOptions) : Option FeedInfoE :=
  if r.ok || opts.UseDefValueOnError then some ⟨r.publisher⟩ else none

/-- Modelled from the spec: `createStop`. Parent stations are resolved in a
deferred pass, so the materializer leaves the parent nil (the src comment:
"the default value nil has already be written above"). -/
def createStop (r : StopRec) (opts : ParseOptions) : Option Stop :=
  if r.ok || opts.UseDefValueOnError then some { Id := r.id } else none

/-- Modelled from the spec: `createShapePoint` mutates the shapes table,
appending the point to its shape (creating the shape on first sight). -/
def createShapePoint (r : ShapeRec) (shapes : StrMap (Option Shape)) (opts : ParseOptions) :
    Option (StrMap (Option Shape)) :=
  if r.ok || opts.UseDefValueOnError then
    let p : ShapePoint :=
      { Sequence := r.seq, Dist_traveled := r.dist.getD 0, Has_dist := r.dist.isSome }
    some (match mFind? shapes r.shapeId with
      | some (some sh) => mInsert shapes r.shapeId (some { sh with Points := sh.Points ++ [p] })
      | some none => shapes
      | none => mInsert shapes r.shapeId (some ⟨r.shapeId, [p]⟩))
  else none

/-- Modelled from the spec: `createRoute` resolves the agency reference
against the agencies table. -/
def createRoute (r : RouteRec) (ags : StrMap Agency) (opts : ParseOptions) : Option Route :=
  if (r.ok && (match r.agency with
      | none => true
      | some a => mContains ags a)) || opts.UseDefValueOnError then
    some ⟨r.id, r.agency⟩
  else none

/-- Modelled from the spec: `createServiceFromCalendar`; a service id already
present is merged in place and `none` is returned in place of a new entity
(feed.go line 332's comment). -/
def createServiceFromCalendar (r : CalRec) (svcs : StrMap (Option Service))
    (opts : ParseOptions) : Option (Option Service) :=
  if r.ok || opts.UseDefValueOnError then
    if mContains svcs r.serviceId then some none else some (some ⟨r.serviceId⟩)
  else none

/-- Modelled from the spec: `createServiceFromCalendarDates`; unlike the
calendar variant the source passes no options (feed.go line 362), so no
default substitution happens here. -/
def createServiceFromCalendarDates (r : CalRec) (svcs : StrMap (Option Service)) :
    Option (Option Service) :=
  if r.ok then
    if mContains svcs r.serviceId then some none else some (some ⟨r.serviceId⟩)
  else none

/-- Modelled from the spec: `createTrip` resolves route, service and shape
references by id against the already-loaded tables. -/
def createTrip (r : TripRec) (routes : StrMap (Option Route))
    (svcs : StrMap (Option Service)) (shapes : StrMap (Option Shape))
    (opts : ParseOptions) : Option Trip :=
  if (r.ok && mContains routes r.routeId && mContains svcs r.serviceId &&
      (match r.shapeId with
        | none => true
        | some sid => mContains shapes sid)) || opts.UseDefValueOnError then
    some { Id := r.id, RouteId := r.routeId, ServiceId := r.serviceId, ShapeId := r.shapeId }
  else none

/-- Modelled from the spec: `createStopTime` resolves its stop and trip
references and yields the stop-time to be appended to the trip. -/
def createStopTime (r : StopTimeRec) (stops : StrMap Stop)
    (trips : StrMap (Option Trip)) (opts : ParseOptions) : Option StopTime :=
  if (r.ok && mContains stops r.stopId && mContains trips r.tripId) ||
      opts.UseDefValueOnError then
    some { StopId := r.stopId, Arrival_time := ⟨r.arr⟩, Departure_time := ⟨r.dep⟩,
           Sequence := r.seq, Shape_dist_traveled := r.dist.getD 0,
           Has_dist := r.dist.isSome }
  else none

/-- Appending a created stop-time to its trip. An unresolved or nil trip
entry leaves the table unchanged (the claims never exercise this corner). -/
def attachStopTime (trips : StrMap (Option Trip)) (tid : String) (st : StopTime) :
    StrMap (Option Trip) :=
  match mFind? trips tid with
  | some (some t) => mInsert trips tid (some { t with StopTimes := t.StopTimes ++ [st] })
  | _ => trips

/-- Modelled from the spec: `createFareAttribute`. -/
def createFareAttribute (r : FareAttrRec) (opts : ParseOptions) : Option FareAttribute :=
  if r.ok || opts.UseDefValueOnError then some ⟨r.id⟩ else none

/-- Modelled from the spec: `createFareRule` validates its fare and route
references; the source passes it no options (feed.go line 551). -/
def createFareRule (r : FareRuleRec) (fas : StrMap FareAttribute)
    (routes : StrMap (Option Route)) : Option Unit :=
  if r.ok && mContains fas r.fareId && (match r.routeId with
      | none => true
      | some rid => mContains routes rid) then some () else none

/-- Modelled from the spec: `createFrequency` validates its trip reference. -/
def createFrequency (r : FreqRec) (trips : StrMap (Option Trip))
    (opts : ParseOptions) : Option Unit :=
  if (r.ok && mContains trips r.tripId) || opts.UseDefValueOnError then some () else none

/-- Modelled from the spec: `createTransfer` resolves both stop references. -/
def createTransfer (r : TransferRec) (stops : StrMap Stop) (opts : ParseOptions) :
    Option Transfer :=
  if (r.ok && mContains stops r.fromId && mContains stops r.toId) ||
      opts.UseDefValueOnError then some ⟨r.fromId, r.toId⟩ else none

/-! ### Per-file stages

Each `parse*` mirrors its src/ function: the `getFile` failure branch
(required vs. optional file), then the record loop with the uniform
drop-or-panic policy; recovered panics become `ParseError`s for that file.
Each stage core works on the one Feed component its source mutates. -/

/-- Record loop of `Feed.parseAgencies` (feed.go lines 188-217). -/
def agenciesCore (opts : ParseOptions) :
    List AgencyRec → StrMap Agency → Except PErr (StrMap Agency)
  | [], m => .ok m
  | r :: rest, m =>
    match createAgency r opts with
    | none =>
      if opts.DropErroneous then agenciesCore opts rest m
      else .error (.parseE "agency.txt" .fieldErr)
    | some a => agenciesCore opts rest (mInsert m a.Id a)

def parseAgencies (opts : ParseOptions) (inp : GtfsInput) (s : FeedState) :
    Except PErr FeedState :=
  match inp.agencyF with
  | none => .error (.reqFile "agency.txt")
  | some recs =>
    match agenciesCore opts recs s.Agencies with
    | .error e => .error e
    | .ok m => .ok { s with Agencies := m }

/-- Record loop of `Feed.parseFeedInfos` (feed.go lines 596-626): entities
are appended only outside dry run. -/
def feedInfosCore (opts : ParseOptions) :
    List FeedInfoRec → List FeedInfoE → Except PErr (List FeedInfoE)
  | [], l => .ok l
  | r :: rest, l =>
    match createFeedInfo r opts with
    | none =>
      if opts.DropErroneous then feedInfosCore opts rest l
      else .error (.parseE "feed_info.txt" .fieldErr)
    | some fi => feedInfosCore opts rest (if !opts.DryRun then l ++ [fi] else l)

def parseFeedInfos (opts : ParseOptions) (inp : GtfsInput) (s : FeedState) :
    Except PErr FeedState :=
  match inp.feedInfoF with
  | none => .ok s
  | some recs =>
    match feedInfosCore opts recs s.FeedInfos with
    | .error e => .error e
    | .ok l => .ok { s with FeedInfos := l }

/-- First pass of `Feed.parseStops` (feed.go lines 236-249): create stops,
remember non-empty `parent_station` fields keyed by the stop's id. -/
def stopsPass1 (opts : ParseOptions) :
    List StopRec → StrMap Stop → StrMap String → Except PErr (StrMap Stop × StrMap String)
  | [], m, pids => .ok (m, pids)
  | r :: rest, m, pids =>
    match createStop r opts with
    | none =>
      if opts.DropErroneous then stopsPass1 opts rest m pids
      else .error (.parseE "stops.txt" .fieldErr)
    | some stop =>
      let pids' := match r.parent_station with
        | some v => if v.length > 0 then mInsert pids stop.Id v else pids
        | none => pids
      stopsPass1 opts rest (mInsert m stop.Id stop) pids'

/-- The write `feed.Stops[id].Parent_station = pstop`: dereferencing a
missing (nil) map entry is a runtime panic, reported as `none`. -/
def writeParent (m : StrMap Stop) (id : String) (pid : Option String) :
    Option (StrMap Stop) :=
  match mFind? m id with
  | some st => some (mInsert m id { st with Parent_station := pid })
  | none => none

/-- Parent-station linking pass of `Feed.parseStops` (feed.go lines
252-266). The `DropErroneous` branch deletes the entry and then — there is
no `continue` — falls through to the parent write on the just-deleted (nil)
entry; the nil-pointer panic is recovered by the deferred handler and
surfaces as a `ParseError` for stops.txt. -/
def linkParents (opts : ParseOptions) :
    StrMap String → StrMap Stop → Except PErr (StrMap Stop)
  | [], m => .ok m
  | (id, pid) :: rest, m =>
    match mFind? m pid with
    | some _ =>
      match writeParent m id (some pid) with
      | some m' => linkParents opts rest m'
      | none => .error (.parseE "stops.txt" .nilPointer)
    | none =>
      if opts.UseDefValueOnError then linkParents opts rest m
      else if opts.DropErroneous then
        match writeParent (mErase m id) id (some pid) with
        | some m' => linkParents opts rest m'
        | none => .error (.parseE "stops.txt" .nilPointer)
      else .error (.parseE "stops.txt" (.noParent id pid))

def parseStops (opts : ParseOptions) (inp : GtfsInput) (s : FeedState) :
    Except PErr FeedState :=
  match inp.stopsF with
  | none => .error (.reqFile "stops.txt")
  | some recs =>
    match stopsPass1 opts recs s.Stops [] with
    | .error e => .error e
    | .ok (m, pids) =>
      match linkParents opts pids m with
      | .error e => .error e
      | .ok m' => .ok { s with Stops := m' }

/-- Record loop of `Feed.parseShapes` (feed.go lines 416-444). -/
def shapesCore (opts : ParseOptions) :
    List ShapeRec → StrMap (Option Shape) → Except PErr (StrMap (Option Shape))
  | [], m => .ok m
  | r :: rest, m =>
    match createShapePoint r m opts with
    | none =>
      if opts.DropErroneous then shapesCore opts rest m
      else .error (.parseE "shapes.txt" .fieldErr)
    | some m' => shapesCore opts rest m'

def parseShapes (opts : ParseOptions) (inp : GtfsInput) (s : FeedState) :
    Except PErr FeedState :=
  match inp.shapesF with
  | none => .ok s
  | some recs =>
    match shapesCore opts recs s.Shapes with
    | .error e => .error e
    | .ok m => .ok { s with Shapes := m }

/-- Stable sort by an integer key, modelling `sort.Sort` on the
sequence-ordered point and stop-time collections. -/
def insertByKey {α : Type} (key : α → Int) (p : α) : List α → List α
  | [] => [p]
  | q :: rest => if key q ≤ key p then q :: insertByKey key p rest else p :: q :: rest

def sortByKey {α : Type} (key : α → Int) : List α → List α
  | [] => []
  | p :: rest => insertByKey key p (sortByKey key rest)

/-- Shape block of `Feed.Parse` (feed.go lines 80-95): sort each shape's
points, run the shape check, stop at the first error. On the failure path
`Parse` returns only the error, so the partially mutated table is dropped. -/
def shapeCheckFold (opts : ParseOptions) :
    StrMap (Option Shape) → Except PErr (StrMap (Option Shape))
  | [] => .ok []
  | (id, osh) :: rest =>
    match osh with
    | none =>
      match shapeCheckFold opts rest with
      | .error e => .error e
      | .ok rest' => .ok ((id, none) :: rest')
    | some sh =>
      let sorted := sortByKey (fun p => p.Sequence) sh.Points
      match checkShapeMeasure { sh with Points := sorted } opts with
      | .oob => .error .crash
      | .fatal e _ => .error (.check e)
      | .ok pts =>
        match shapeCheckFold opts rest with
        | .error e => .error e
        | .ok rest' => .ok ((id, some { sh with Points := pts }) :: rest')

/-- Dry-run clearing `feed.Shapes[id] = nil` / `feed.Trips[id] = nil`. -/
def clearVals {α : Type} : StrMap (Option α) → StrMap (Option α)
  | [] => []
  | (id, _) :: rest => (id, none) :: clearVals rest

def shapeCheckStage (opts : ParseOptions) (s : FeedState) : Except PErr FeedState :=
  match shapeCheckFold opts s.Shapes with
  | .error e => .error e
  | .ok m => .ok { s with Shapes := if opts.DryRun then clearVals m else m }

/-- Record loop of `Feed.parseRoutes` (feed.go lines 271-303): under dry run
the slot is written nil. -/
def routesCore (opts : ParseOptions) (ags : StrMap Agency) :
    List RouteRec → StrMap (Option Route) → Except PErr (StrMap (Option Route))
  | [], m => .ok m
  | r :: rest, m =>
    match createRoute r ags opts with
    | none =>
      if opts.DropErroneous then routesCore opts ags rest m
      else .error (.parseE "routes.txt" .fieldErr)
    | some rt =>
      routesCore opts ags rest (mInsert m rt.Id (if opts.DryRun then none else some rt))

def parseRoutes (opts : ParseOptions) (inp : GtfsInput) (s : FeedState) :
    Except PErr FeedState :=
  match inp.routesF with
  | none => .error (.reqFile "routes.txt")
  | some recs =>
    match routesCore opts s.Agencies recs s.Routes with
    | .error e => .error e
    | .ok m => .ok { s with Routes := m }

/-- Record loop of `Feed.parseCalendar` (feed.go lines 305-343). -/
def calendarCore (opts : ParseOptions) :
    List CalRec → StrMap (Option Service) → Except PErr (StrMap (Option Service))
  | [], m => .ok m
  | r :: rest, m =>
    match createServiceFromCalendar r m opts with
    | none =>
      if opts.DropErroneous then calendarCore opts rest m
      else .error (.parseE "calendar.txt" .fieldErr)
    | some none => calendarCore opts rest m
    | some (some svc) =>
      calendarCore opts rest (mInsert m svc.Id (if opts.DryRun then none else some svc))

def parseCalendar (opts : ParseOptions) (inp : GtfsInput) (s : FeedState) :
    Except PErr FeedState :=
  match inp.calendarF with
  | none => .ok s
  | some recs =>
    match calendarCore opts recs s.Services with
    | .error e => .error e
    | .ok m => .ok { s with Services := m }

/-- Record loop of `Feed.parseCalendarDates` (feed.go lines 345-383). -/
def calendarDatesCore (opts : ParseOptions) :
    List CalRec → StrMap (Option Service) → Except PErr (StrMap (Option Service))
  | [], m => .ok m
  | r :: rest, m =>
    match createServiceFromCalendarDates r m with
    | none =>
      if opts.DropErroneous then calendarDatesCore opts rest m
      else .error (.parseE "calendar_dates.txt" .fieldErr)
    | some none => calendarDatesCore opts rest m
    | some (some svc) =>
      calendarDatesCore opts rest (mInsert m svc.Id (if opts.DryRun then none else some svc))

def parseCalendarDates (opts : ParseOptions) (inp : GtfsInput) (s : FeedState) :
    Except PErr FeedState :=
  match inp.calendarDatesF with
  | none => .ok s
  | some recs =>
    match calendarDatesCore opts recs s.Services with
    | .error e => .error e
    | .ok m => .ok { s with Services := m }

/-- Record loop of `Feed.parseTrips` (feed.go lines 385-414): trips are
always stored as real entities (no dry-run branch here). -/
def tripsCore (opts : ParseOptions) (routes : StrMap (Option Route))
    (svcs : StrMap (Option Service)) (shapes : StrMap (Option Shape)) :
    List TripRec → StrMap (Option Trip) → Except PErr (StrMap (Option Trip))
  | [], m => .ok m
  | r :: rest, m =>
    match createTrip r routes svcs shapes opts with
    | none =>
      if opts.DropErroneous then tripsCore opts routes svcs shapes rest m
      else .error (.parseE "trips.txt" .fieldErr)
    | some t => tripsCore opts routes svcs shapes rest (mInsert m t.Id (some t))

def parseTrips (opts : ParseOptions) (inp : GtfsInput) (s : FeedState) :
    Except PErr FeedState :=
  match inp.tripsF with
  | none => .error (.reqFile "trips.txt")
  | some recs =>
    match tripsCore opts s.Routes s.Services s.Shapes recs s.Trips with
    | .error e => .error e
    | .ok m => .ok { s with Trips := m }

/-- Record loop of `Feed.parseStopTimes` (feed.go lines 446-474). -/
def stopTimesCore (opts : ParseOptions) (stops : StrMap Stop) :
    List StopTimeRec → StrMap (Option Trip) → Except PErr (StrMap (Option Trip))
  | [], m => .ok m
  | r :: rest, m =>
    match createStopTime r stops m opts with
    | none =>
      if opts.DropErroneous then stopTimesCore opts stops rest m
      else .error (.parseE "stop_times.txt" .fieldErr)
    | some st => stopTimesCore opts stops rest (attachStopTime m r.tripId st)

def parseStopTimes (opts : ParseOptions) (inp : GtfsInput) (s : FeedState) :
    Except PErr FeedState :=
  match inp.stopTimesF with
  | none => .error (.reqFile "stop_times.txt")
  | some recs =>
    match stopTimesCore opts s.Stops recs s.Trips with
    | .error e => .error e
    | .ok m => .ok { s with Trips := m }

/-- Trip block of `Feed.Parse` (feed.go lines 113-126): sort each trip's
stop-times, run the stop-time check, stop at the first error; under dry run
a successfully checked trip's slot is immediately nil'd. -/
def stopTimeCheckFold (opts : ParseOptions) :
    StrMap (Option Trip) → Except PErr (StrMap (Option Trip))
  | [] => .ok []
  | (id, otr) :: rest =>
    match otr with
    | none =>
      match stopTimeCheckFold opts rest with
      | .error e => .error e
      | .ok rest' => .ok ((id, none) :: rest')
    | some tr =>
      let sorted := sortByKey (fun st => st.Sequence) tr.StopTimes
      match checkStopTimeMeasure { tr with StopTimes := sorted } opts with
      | .oob => .error .crash
      | .fatal e _ => .error (.check e)
      | .ok sts =>
        match stopTimeCheckFold opts rest with
        | .error e => .error e
        | .ok rest' =>
          .ok ((id, if opts.DryRun then none else some { tr with StopTimes := sts }) :: rest')

def stopTimeCheckStage (opts : ParseOptions) (s : FeedState) : Except PErr FeedState :=
  match stopTimeCheckFold opts s.Trips with
  | .error e => .error e
  | .ok m => .ok { s with Trips := m }

/-- Record loop of `Feed.parseFareAttributes` (feed.go lines 505-533). -/
def fareAttrCore (opts : ParseOptions) :
    List FareAttrRec → StrMap FareAttribute → Except PErr (StrMap FareAttribute)
  | [], m => .ok m
  | r :: rest, m =>
    match createFareAttribute r opts with
    | none =>
      if opts.DropErroneous then fareAttrCore opts rest m
      else .error (.parseE "fare_attributes.txt" .fieldErr)
    | some fa => fareAttrCore opts rest (mInsert m fa.Id fa)

def parseFareAttributes (opts : ParseOptions) (inp : GtfsInput) (s : FeedState) :
    Except PErr FeedState :=
  match inp.fareAttrF with
  | none => .ok s
  | some recs =>
    match fareAttrCore opts recs s.FareAttributes with
    | .error e => .error e
    | .ok m => .ok { s with FareAttributes := m }

/-- Record loop of `Feed.parseFareAttributeRules` (feed.go lines 535-562);
the created rule is attached to its fare attribute, which the claims never
observe, so only the validation is modelled. -/
def fareRulesCore (opts : ParseOptions) (fas : StrMap FareAttribute)
    (routes : StrMap (Option Route)) : List FareRuleRec → Except PErr Unit
  | [] => .ok ()
  | r :: rest =>
    match createFareRule r fas routes with
    | none =>
      if opts.DropErroneous then fareRulesCore opts fas routes rest
      else .error (.parseE "fare_rules.txt" .fieldErr)
    | some _ => fareRulesCore opts fas routes rest

def parseFareRules (opts : ParseOptions) (inp : GtfsInput) (s : FeedState) :
    Except PErr FeedState :=
  match inp.fareRuleF with
  | none => .ok s
  | some recs =>
    match fareRulesCore opts s.FareAttributes s.Routes recs with
    | .error e => .error e
    | .ok _ => .ok s

/-- Record loop of `Feed.parseFrequencies` (feed.go lines 476-503); the
frequency is appended to its trip, which the claims never observe. -/
def frequenciesCore (opts : ParseOptions) (trips : StrMap (Option Trip)) :
    List FreqRec → Except PErr Unit
  | [] => .ok ()
  | r :: rest =>
    match createFrequency r trips opts with
    | none =>
      if opts.DropErroneous then frequenciesCore opts trips rest
      else .error (.parseE "frequencies.txt" .fieldErr)
    | some _ => frequenciesCore opts trips rest

def parseFrequencies (opts : ParseOptions) (inp : GtfsInput) (s : FeedState) :
    Except PErr FeedState :=
  match inp.frequenciesF with
  | none => .ok s
  | some recs =>
    match frequenciesCore opts s.Trips recs with
    | .error e => .error e
    | .ok _ => .ok s

/-- Record loop of `Feed.parseTransfers` (feed.go lines 564-594): transfers
are appended only outside dry run. -/
def transfersCore (opts : ParseOptions) (stops : StrMap Stop) :
    List TransferRec → List Transfer → Except PErr (List Transfer)
  | [], l => .ok l
  | r :: rest, l =>
    match createTransfer r stops opts with
    | none =>
      if opts.DropErroneous then transfersCore opts stops rest l
      else .error (.parseE "transfers.txt" .fieldErr)
    | some t => transfersCore opts stops rest (if !opts.DryRun then l ++ [t] else l)

def parseTransfers (opts : ParseOptions) (inp : GtfsInput) (s : FeedState) :
    Except PErr FeedState :=
  match inp.transfersF with
  | none => .ok s
  | some recs =>
    match transfersCore opts s.Stops recs s.Transfers with
    | .error e => .error e
    | .ok l => .ok { s with Transfers := l }

/-! ### The orchestrator -/

/-- The `if e == nil` cascade of `Feed.Parse`: run stages in order, halting
at and propagating the first failure. -/
def runChain : List (FeedState → Except PErr FeedState) → FeedState → Except PErr FeedState
  | [], s => .ok s
  | f :: fs, s =>
    match f s with
    | .error e => .error e
    | .ok s' => runChain fs s'

/-- The stage blocks of `Feed.Parse` (feed.go lines 66-151) in source
order; the two consistency-check blocks are their own entries of the
cascade. -/
def parseStages (opts : ParseOptions) (inp : GtfsInput) :
    List (FeedState → Except PErr FeedState) :=
  [parseAgencies opts inp, parseFeedInfos opts inp, parseStops opts inp,
   parseShapes opts inp, shapeCheckStage opts, parseRoutes opts inp,
   parseCalendar opts inp, parseCalendarDates opts inp, parseTrips opts inp,
   parseStopTimes opts inp, stopTimeCheckStage opts, parseFareAttributes opts inp,
   parseFareRules opts inp, parseFrequencies opts inp, parseTransfers opts inp]

/-- `Feed.Parse` (feed.go lines 66-151). -/
def Parse (opts : ParseOptions) (inp : GtfsInput) : Except PErr FeedState :=
  runChain (parseStages opts inp) NewFeed

/-! ## Concrete inputs used by witnesses and counterexamples -/

/-- Strict options: every anomaly fatal (the default `ParseOptions`). -/
def optsN : ParseOptions := ⟨false, false, false⟩

/-- Only `drop_erroneous` set. -/
def optsDrop : ParseOptions := ⟨false, true, false⟩

/-- Only `use_default_on_error` set. -/
def optsDef : ParseOptions := ⟨true, false, false⟩

/-- Only `dry_run` set. -/
def optsDry : ParseOptions := ⟨false, false, true⟩

/-- All required files present and empty; both calendar files absent. -/
def inpNoCal : GtfsInput :=
  { agencyF := some [], stopsF := some [], routesF := some [],
    tripsF := some [], stopTimesF := some [] }

/-- agency.txt present (and empty), stops.txt absent. -/
def inpW1 : GtfsInput := { agencyF := some [] }

/-- A stops file with one stop whose `parent_station` names a missing id. -/
def inpDang : GtfsInput :=
  { agencyF := some [], stopsF := some [{ id := "A", parent_station := some "Z" }],
    routesF := some [], calendarF := some [], tripsF := some [], stopTimesF := some [] }

/-- A stops file with one stop whose `parent_station` is the stop itself. -/
def inpSelf : GtfsInput :=
  { agencyF := some [], stopsF := some [{ id := "A", parent_station := some "A" }],
    routesF := some [], calendarF := some [], tripsF := some [], stopTimesF := some [] }

/-- Two stops and a transfer between them. -/
def inpTr : GtfsInput :=
  { agencyF := some [], stopsF := some [{ id := "s1" }, { id := "s2" }],
    routesF := some [], calendarF := some [], tripsF := some [], stopTimesF := some [],
    transfersF := some [{ fromId := "s1", toId := "s2" }] }

/-- A stop with a parent defined later in the file, plus required empties. -/
def inpPar : GtfsInput :=
  { agencyF := some [],
    stopsF := some [{ id := "s1", parent_station := some "s2" }, { id := "s2" }],
    routesF := some [], calendarF := some [], tripsF := some [], stopTimesF := some [] }

/-- One route, otherwise empty required files. -/
def inpRt : GtfsInput :=
  { agencyF := some [], stopsF := some [], routesF := some [{ id := "r1" }],
    calendarF := some [], tripsF := some [], stopTimesF := some [] }

/-! ## Chain lemmas for the orchestrator -/

theorem runChain_append (l1 l2 : List (FeedState → Except PErr FeedState)) (s : FeedState) :
    runChain (l1 ++ l2) s =
      match runChain l1 s with
      | .ok s' => runChain l2 s'
      | .error e => .error e := by
  induction l1 generalizing s with
  | nil => rfl
  | cons f fs ih =>
    simp only [List.cons_append, runChain]
    cases f s <;> simp [ih]

theorem runChain_ok_cons {f : FeedState → Except PErr FeedState}
    {fs : List (FeedState → Except PErr FeedState)} {s t : FeedState}
    (h : runChain (f :: fs) s = .ok t) :
    ∃ s', f s = .ok s' ∧ runChain fs s' = .ok t := by
  simp only [runChain] at h
  cases hf : f s with
  | error e => rw [hf] at h; exact absurd h (by simp)
  | ok s' => rw [hf] at h; exact ⟨s', rfl, h⟩

theorem list_decomp {α : Type} :
    ∀ (l : List α) (k : Nat) (f : α), l.get? k = some f →
      l = l.take k ++ f :: l.drop (k + 1)
  | [], k, f, h => by simp [List.get?] at h
  | a :: l, 0, f, h => by
    simp only [List.get?, Option.some.injEq] at h
    simp [h.symm]
  | a :: l, k + 1, f, h => by
    simp only [List.get?] at h
    have := list_decomp l k f h
    simpa using congrArg (a :: ·) this

/-! ## Claim C1 -/

/-- C1 (confirmed): if the stages before position `k` of the `Parse`
cascade succeed and stage `k` reports a failure, then `Parse` returns that
stage's error, and it would return the same error whatever stages follow
position `k` — i.e. no later stage is executed. -/
theorem c1_parse_halts_at_first_failing_stage (opts : ParseOptions) (inp : GtfsInput)
    (k : Nat) (f : FeedState → Except PErr FeedState) (s : FeedState) (e : PErr)
    (hpre : runChain ((parseStages opts inp).take k) NewFeed = .ok s)
    (hget : (parseStages opts inp).get? k = some f)
    (hfail : f s = .error e) :
    Parse opts inp = .error e ∧
      ∀ later : List (FeedState → Except PErr FeedState),
        runChain ((parseStages opts inp).take k ++ f :: later) NewFeed = .error e := by
  have hsecond : ∀ later : List (FeedState → Except PErr FeedState),
      runChain ((parseStages opts inp).take k ++ f :: later) NewFeed = .error e := by
    intro later
    rw [runChain_append, hpre]
    simp only [runChain, hfail]
  refine ⟨?_, hsecond⟩
  have hdec := list_decomp (parseStages opts inp) k f hget
  calc Parse opts inp
      = runChain ((parseStages opts inp).take k ++
          f :: (parseStages opts inp).drop (k + 1)) NewFeed := by
        rw [Parse, ← hdec]
    _ = .error e := hsecond _

/-- Witness for C1: with agency.txt present and stops.txt missing, the
stops stage (position 2) fails and `Parse` propagates its error. -/
theorem c1_witness_missing_stops : Parse optsN inpW1 = .error (.reqFile "stops.txt") :=
  (c1_parse_halts_at_first_failing_stage optsN inpW1 2 (parseStops optsN inpW1)
    NewFeed (.reqFile "stops.txt") rfl rfl rfl).1

/-! ## Claim C2 -/

/-- C2 (code bug): with `drop_erroneous` set, dropping the point with
distance 3 (< running max 5) shortens the sequence, but the loop bound
`j < len(shape.Points)` is re-evaluated against the shortened slice while
the index is also offset by the deletion count, so the final point — whose
distance 4 is likewise below the declared maximum 5 — is never examined
and survives. The spec requires every point to be checked against the
compacted sequence. -/
theorem c2_drop_skips_tail_of_compacted_sequence :
    checkShapeMeasure ⟨"s", [pt 1 0, pt 2 5, pt 3 3, pt 4 4]⟩ optsDrop =
      .ok [pt 1 0, pt 2 5, pt 4 4] := by rfl

/-! ## Claim C3 -/

/-- C3 (code bug): a stop `A` whose `parent_station` names a missing id
`Z`. Under strict options the parse fails naming the stop id; under
`use_default_on_error` the stop is kept with no parent link; but under
`drop_erroneous` the branch deletes the map entry and then — lacking a
`continue` — assigns through the now-nil entry, so the recovered
nil-pointer panic surfaces as a ParseError instead of the claimed
drop-and-succeed. -/
theorem c3_dangling_parent_three_policies :
    Parse optsN inpDang = .error (.parseE "stops.txt" (.noParent "A" "Z")) ∧
    Parse optsDef inpDang = .ok { Stops := [("A", { Id := "A", Parent_station := none })] } ∧
    Parse optsDrop inpDang = .error (.parseE "stops.txt" .nilPointer) := by
  exact ⟨rfl, rfl, rfl⟩

/-! ## Claim C4 -/

/-- C4 (code bug): with `drop_erroneous` set, the temporal violation
between sequences 1 and 2 (departure 100 > arrival 50) drops the second
stop-time, after which the shortened loop bound prevents the pair
(sequence 3, sequence 4) from ever being examined — its departure 200 >
arrival 150 violation survives in the returned sequence, though the claim
says every offending stop-time is removed. -/
theorem c4_temporal_violation_survives_after_drop :
    checkStopTimeMeasure
        ⟨"t", "", "", none, [stt 1 0 100, stt 2 50 60, stt 3 110 200, stt 4 150 300]⟩
        optsDrop =
      .ok [stt 1 0 100, stt 3 110 200, stt 4 150 300] := by rfl

/-! ## Claim C6 (counterexample) -/

/-- C6 fails as stated: a feed in which both calendar.txt and
calendar_dates.txt are absent parses successfully — both calendar stages
treat a missing file as an empty input and report no error. -/
theorem c6_counterexample_no_calendar_parse_succeeds :
    Parse optsN inpNoCal = .ok NewFeed := by rfl

/-! ## Claim C7 (counterexample) -/

/-- C7 fails as stated: under `dry_run` the transfers stage does not append
the (fully validated) transfer at all, so Transfers are not retained: the
dry-run Feed has an empty transfer list where the normal parse has one
entry. -/
theorem c7_counterexample_transfers_dropped_in_dry_run :
    (Parse optsDry inpTr).map FeedState.Transfers = .ok [] ∧
    (Parse optsN inpTr).map FeedState.Transfers = .ok [⟨"s1", "s2"⟩] := by
  exact ⟨rfl, rfl⟩

/-! ## Claim C8 (counterexample) -/

/-- C8 fails as stated: a stop whose `parent_station` is its own id parses
successfully under strict options, and its parent link points to the stop
itself — the linking pass never compares the two ids. -/
theorem c8_counterexample_self_parent :
    Parse optsN inpSelf = .ok { Stops := [("A", { Id := "A", Parent_station := some "A" })] } := by
  rfl

/-! ## Claim C9 (counterexample) -/

/-- C9 fails as stated: with `drop_erroneous` set, a temporal violation at
the last pair drops the final stop-time, after which the distance check
reads `StopTimes[i]` with `i` now equal to the shortened length — an
out-of-range access (a Go runtime panic with no recover on this path). -/
theorem c9_counterexample_oob :
    checkStopTimeMeasure ⟨"t", "", "", none, [stt 1 0 100, stt 2 50 120]⟩ optsDrop = .oob := by
  rfl

/-! ## Access and head-preservation helpers -/

theorem idx?_some {α : Type} {l : List α} {i : Int} {a : α} (h : idx? l i = some a) :
    0 ≤ i ∧ l.get? i.toNat = some a := by
  by_cases hneg : i < 0
  · simp [idx?, hneg] at h
  · exact ⟨le_of_not_lt hneg, by simpa [idx?, hneg] using h⟩

theorem idx?_eq_some_get {α : Type} (l : List α) (i : Int) (h0 : 0 ≤ i)
    (hl : i.toNat < l.length) :
    idx? l i = some (l.get ⟨i.toNat, hl⟩) := by
  rw [idx?, if_neg (not_lt.mpr h0), List.get?_eq_get hl]

theorem head?_set_of_pos {α : Type} (l : List α) {k : Nat} (a : α) (hk : 1 ≤ k) :
    (l.set k a).head? = l.head? := by
  cases l with
  | nil => simp
  | cons b t =>
    cases k with
    | zero => omega
    | succ k => rfl

theorem head?_eraseIdx_of_pos {α : Type} (l : List α) {k : Nat} (hk : 1 ≤ k) :
    (l.eraseIdx k).head? = l.head? := by
  cases l with
  | nil => simp
  | cons b t =>
    cases k with
    | zero => omega
    | succ k => rfl

/-- Heads agree between a check's returned sequence (on the `ok` and
`fatal` paths, where the sequence is observable) and the input sequence. -/
def headsMatch {α : Type} (res : CheckResult α) (orig : List α) : Prop :=
  match res with
  | .ok l => l.head? = orig.head?
  | .fatal _ l => l.head? = orig.head?
  | .oob => True

theorem headsMatch_of_head_eq {α : Type} {res : CheckResult α} {l l' : List α}
    (h : headsMatch res l') (e : l'.head? = l.head?) : headsMatch res l := by
  cases res with
  | ok v => exact Eq.trans h e
  | fatal er v => exact Eq.trans h e
  | oob => trivial

theorem idx?_isSome_of {α : Type} (l : List α) (i : Int) (h0 : 0 ≤ i)
    (hl : i < (l.length : Int)) : ∃ a, idx? l i = some a := by
  rw [idx?, if_neg (not_lt.mpr h0)]
  have ht : i.toNat < l.length := by omega
  exact ⟨l.get ⟨i.toNat, ht⟩, List.get?_eq_get ht⟩

theorem checkStopTimeLoop_no_oob (tripId : String) (opt : ParseOptions)
    (hD : opt.DropErroneous = false) :
    ∀ (fuel : Nat) (sts : List StopTime) (maxD : Option Int) (deleted j : Nat),
      deleted + 1 ≤ j →
      checkStopTimeLoop tripId opt fuel sts maxD deleted j ≠ .oob := by
  intro fuel
  induction fuel with
  | zero =>
    intro sts maxD deleted j hj
    simp [checkStopTimeLoop]
  | succ fuel ih =>
    intro sts maxD deleted j hj
    simp only [checkStopTimeLoop]
    split
    case isFalse h => simp
    case isTrue hlen =>
      obtain ⟨prev0, hprev⟩ := idx?_isSome_of sts ((j : Int) - (deleted : Int) - 1)
        (by omega) (by omega)
      obtain ⟨cur0, hcur⟩ := idx?_isSome_of sts ((j : Int) - (deleted : Int))
        (by omega) (by omega)
      rw [hprev]
      dsimp only
      rw [hcur]
      dsimp only
      simp only [hD, Bool.not_false, Bool.and_true]
      by_cases htv : stTempViol prev0 cur0 = true
      · rw [if_pos htv]
        simp
      · rw [if_neg htv]
        have htv' : stTempViol prev0 cur0 = false := by
          revert htv; cases stTempViol prev0 cur0 <;> simp
        simp only [htv', Bool.false_eq_true, if_false]
        rw [hprev]
        dsimp only
        rw [hcur]
        dsimp only
        generalize (if prev0.HasDistanceTraveled = true
          then some prev0.Shape_dist_traveled else maxD) = maxD2
        split
        · split
          · exact ih _ _ _ _ (by omega)
          · simp
        · exact ih _ _ _ _ (by omega)

/-- C9 (amended): whenever `drop_erroneous` is unset, the stop-time check
accesses only in-bounds positions — it never ends in the out-of-range
runtime panic. (With `drop_erroneous` set the claim fails, see the
counterexample: removing the last element in the temporal check makes the
following distance check read one past the end.) -/
theorem c9_no_oob_without_drop (trip : Trip) (opt : ParseOptions)
    (hD : opt.DropErroneous = false) :
    checkStopTimeMeasure trip opt ≠ .oob :=
  checkStopTimeLoop_no_oob trip.Id opt hD _ trip.StopTimes none 0 1 (by omega)

/-- Witness for the amended C9 at a concrete trip under strict options. -/
theorem c9_witness_strict_two_stop_times :
    checkStopTimeMeasure ⟨"t", "", "", none, [stt 1 0 100, stt 2 50 120]⟩ optsN ≠ .oob :=
  c9_no_oob_without_drop ⟨"t", "", "", none, [stt 1 0 100, stt 2 50 120]⟩ optsN rfl

theorem checkShapeLoop_heads (shapeId : String) (opt : ParseOptions) :
    ∀ (fuel : Nat) (pts : List ShapePoint) (maxD : Option Int) (deleted j : Nat),
      headsMatch (checkShapeLoop shapeId opt fuel pts maxD deleted j) pts := by
  intro fuel
  induction fuel with
  | zero =>
    intro pts maxD deleted j
    simp [checkShapeLoop, headsMatch]
  | succ fuel ih =>
    intro pts maxD deleted j
    simp only [checkShapeLoop]
    split
    case isFalse h => simp [headsMatch]
    case isTrue hlen =>
      cases hprev : idx? pts ((j : Int) - (deleted : Int) - 1) with
      | none => trivial
      | some prev =>
        dsimp only
        cases hcur : idx? pts ((j : Int) - (deleted : Int)) with
        | none => trivial
        | some cur =>
          dsimp only
          have hge : (1 : Nat) ≤ ((j : Int) - (deleted : Int)).toNat := by
            have := (idx?_some hprev).1
            omega
          generalize (if prev.HasDistanceTraveled = true
            then some prev.Dist_traveled else maxD) = maxD2
          split
          · split
            · exact headsMatch_of_head_eq (ih _ _ _ _) (head?_set_of_pos pts _ hge)
            · split
              · exact headsMatch_of_head_eq (ih _ _ _ _) (head?_eraseIdx_of_pos pts hge)
              · simp [headsMatch]
          · exact ih _ _ _ _

theorem checkStopTimeLoop_heads (tripId : String) (opt : ParseOptions) :
    ∀ (fuel : Nat) (sts : List StopTime) (maxD : Option Int) (deleted j : Nat),
      headsMatch (checkStopTimeLoop tripId opt fuel sts maxD deleted j) sts := by
  intro fuel
  induction fuel with
  | zero =>
    intro sts maxD deleted j
    simp [checkStopTimeLoop, headsMatch]
  | succ fuel ih =>
    intro sts maxD deleted j
    simp only [checkStopTimeLoop]
    split
    case isFalse h => simp [headsMatch]
    case isTrue hlen =>
      cases hprev : idx? sts ((j : Int) - (deleted : Int) - 1) with
      | none => trivial
      | some prev0 =>
        dsimp only
        cases hcur : idx? sts ((j : Int) - (deleted : Int)) with
        | none => trivial
        | some cur0 =>
          dsimp only
          have hge : (1 : Nat) ≤ ((j : Int) - (deleted : Int)).toNat := by
            have := (idx?_some hprev).1
            omega
          by_cases htv : stTempViol prev0 cur0 = true
          · simp only [htv, Bool.true_and]
            by_cases hD : opt.DropErroneous = true
            · simp only [hD, Bool.not_true, Bool.false_eq_true, if_false, if_true]
              have hs1 : (sts.eraseIdx ((j : Int) - (deleted : Int)).toNat).head? = sts.head? :=
                head?_eraseIdx_of_pos sts hge
              cases hprev1 : idx? (sts.eraseIdx ((j : Int) - (deleted : Int)).toNat)
                  ((j : Int) - (deleted : Int) - 1) with
              | none => trivial
              | some prev =>
                dsimp only
                cases hcur1 : idx? (sts.eraseIdx ((j : Int) - (deleted : Int)).toNat)
                    ((j : Int) - (deleted : Int)) with
                | none => trivial
                | some cur =>
                  dsimp only
                  generalize (if prev.HasDistanceTraveled = true
                    then some prev.Shape_dist_traveled else maxD) = maxD2
                  split
                  · split
                    · exact headsMatch_of_head_eq (ih _ _ _ _)
                        ((head?_set_of_pos _ _ hge).trans hs1)
                    · exact headsMatch_of_head_eq (ih _ _ _ _)
                        ((head?_eraseIdx_of_pos _ hge).trans hs1)
                  · exact headsMatch_of_head_eq (ih _ _ _ _) hs1
            · have hD' : opt.DropErroneous = false := by
                revert hD; cases opt.DropErroneous <;> simp
              simp only [hD', Bool.not_false, Bool.and_true, if_true]
              simp [headsMatch]
          · have htv' : stTempViol prev0 cur0 = false := by
              revert htv; cases stTempViol prev0 cur0 <;> simp
            simp only [htv', Bool.false_and, Bool.false_eq_true, if_false]
            rw [hprev]
            dsimp only
            rw [hcur]
            dsimp only
            generalize (if prev0.HasDistanceTraveled = true
              then some prev0.Shape_dist_traveled else maxD) = maxD2
            split
            · split
              · exact headsMatch_of_head_eq (ih _ _ _ _) (head?_set_of_pos sts _ hge)
              · split
                · exact headsMatch_of_head_eq (ih _ _ _ _) (head?_eraseIdx_of_pos sts hge)
                · simp [headsMatch]
            · exact ih _ _ _ _

/-- C10 (confirmed): neither consistency check ever removes or modifies the
first element of the (sorted) sequence — on every observable return path
(ok or fatal, where the in-place mutated sequence is visible) the head of
the returned sequence equals the head of the input sequence; all drops and
distance defaults happen at positions after the first. -/
theorem c10_first_element_preserved :
    (∀ (shape : Shape) (opt : ParseOptions),
      headsMatch (checkShapeMeasure shape opt) shape.Points) ∧
    (∀ (trip : Trip) (opt : ParseOptions),
      headsMatch (checkStopTimeMeasure trip opt) trip.StopTimes) :=
  ⟨fun shape opt => checkShapeLoop_heads shape.Id opt _ shape.Points none 0 1,
   fun trip opt => checkStopTimeLoop_heads trip.Id opt _ trip.StopTimes none 0 1⟩

/-! ## Claim C5: spec-side description of the default pass -/

/-- Follows the claim's words (C5): the reset applied to a non-monotonic
point — distance-traveled zeroed, "has distance" flag cleared. -/
def shapePointReset (p : ShapePoint) : ShapePoint :=
  { p with Dist_traveled := 0, Has_dist := false }

/-- Follows the claim's words: position `n` of `orig` declares a distance
greater than `v`. -/
def declGtB (orig : List ShapePoint) (n : Nat) (v : Int) : Bool :=
  match orig.get? n with
  | some q => q.Has_dist && decide (q.Dist_traveled > v)
  | none => false

/-- Follows the claim's words: point `p`, at position `k`, declares a
distance less than some preceding declared distance. -/
def specViolAt (orig : List ShapePoint) (k : Nat) (p : ShapePoint) : Bool :=
  p.Has_dist && (List.range k).any (fun n => declGtB orig n p.Dist_traveled)

def transformAt (orig : List ShapePoint) (k : Nat) (p : ShapePoint) : ShapePoint :=
  if specViolAt orig k p then shapePointReset p else p

def resetFrom (orig : List ShapePoint) : Nat → List ShapePoint → List ShapePoint
  | _, [] => []
  | k, p :: rest => transformAt orig k p :: resetFrom orig (k + 1) rest

/-- Follows the claim's words: the expected output of the shape check under
`use_default_on_error` — every point below a preceding declared distance is
retained reset, every other point is retained unchanged. -/
def shapeDefaultSpec (orig : List ShapePoint) : List ShapePoint :=
  resetFrom orig 0 orig

theorem resetFrom_length (orig : List ShapePoint) :
    ∀ (k : Nat) (l : List ShapePoint), (resetFrom orig k l).length = l.length := by
  intro k l
  induction l generalizing k with
  | nil => rfl
  | cons p rest ih => simp [resetFrom, ih]

theorem resetFrom_get? (orig : List ShapePoint) :
    ∀ (k : Nat) (l : List ShapePoint) (n : Nat),
      (resetFrom orig k l).get? n = (l.get? n).map (transformAt orig (k + n)) := by
  intro k l
  induction l generalizing k with
  | nil => intro n; simp [resetFrom]
  | cons p rest ih =>
    intro n
    cases n with
    | zero => simp [resetFrom]
    | succ n =>
      simp only [resetFrom, List.get?]
      have e : k + 1 + n = k + (n + 1) := by omega
      rw [ih (k + 1) n, e]

theorem shapeDefaultSpec_get? (orig : List ShapePoint) (n : Nat) :
    (shapeDefaultSpec orig).get? n = (orig.get? n).map (transformAt orig n) := by
  rw [shapeDefaultSpec, resetFrom_get?, Nat.zero_add]

theorem shapeDefaultSpec_length (orig : List ShapePoint) :
    (shapeDefaultSpec orig).length = orig.length :=
  resetFrom_length orig 0 orig

theorem specViolAt_iff (orig : List ShapePoint) (k : Nat) (p : ShapePoint) :
    specViolAt orig k p = true ↔
      (p.Has_dist = true ∧ ∃ n, n < k ∧ declGtB orig n p.Dist_traveled = true) := by
  simp [specViolAt, List.any_eq_true, List.mem_range]

theorem declGtB_mono (orig : List ShapePoint) (m : Nat) {w v : Int}
    (h : declGtB orig m w = true) (hwv : v < w) : declGtB orig m v = true := by
  unfold declGtB at h ⊢
  cases horig : orig.get? m with
  | none => rw [horig] at h; exact absurd h (by simp)
  | some q =>
    rw [horig] at h
    simp only [Bool.and_eq_true, decide_eq_true_eq] at h ⊢
    exact ⟨h.1, by omega⟩

theorem bool_eq_false {b : Bool} (h : ¬ b = true) : b = false := by
  cases b
  · rfl
  · exact absurd rfl h

theorem checkShapeLoop_useDef (orig : List ShapePoint) (shapeId : String)
    (opt : ParseOptions) (hU : opt.UseDefValueOnError = true) :
    ∀ (fuel : Nat) (pts : List ShapePoint) (maxD : Option Int) (j : Nat),
      1 ≤ j →
      pts.length = orig.length →
      orig.length - j < fuel →
      (∀ n, n < j → pts.get? n = (orig.get? n).map (transformAt orig n)) →
      (∀ n, j ≤ n → pts.get? n = orig.get? n) →
      (∀ v, maxGt maxD v = true ↔ ∃ n, n + 1 < j ∧ declGtB orig n v = true) →
      checkShapeLoop shapeId opt fuel pts maxD 0 j = .ok (shapeDefaultSpec orig) := by
  intro fuel
  induction fuel with
  | zero =>
    intro pts maxD j hj hlen hfuel hpre hsuf hmax
    omega
  | succ fuel ih =>
    intro pts maxD j hj hlen hfuel hpre hsuf hmax
    by_cases hjlen : j < pts.length
    case neg =>
      have hout : checkShapeLoop shapeId opt (fuel + 1) pts maxD 0 j = .ok pts := by
        simp only [checkShapeLoop]
        rw [if_neg hjlen]
      rw [hout]
      congr 1
      rw [List.ext_get?_iff]
      intro n
      rw [shapeDefaultSpec_get?]
      by_cases hn : n < orig.length
      · exact hpre n (by omega)
      · have h1 : pts.get? n = none := List.get?_eq_none.mpr (by omega)
        have h2 : orig.get? n = none := List.get?_eq_none.mpr (by omega)
        rw [h1, h2]
        rfl
    case pos =>
      have hjo : j < orig.length := by omega
      have hj1o : j - 1 < orig.length := by omega
      obtain ⟨op, hop⟩ : ∃ op, orig.get? (j - 1) = some op :=
        ⟨orig.get ⟨j - 1, hj1o⟩, List.get?_eq_get hj1o⟩
      obtain ⟨oc, hoc⟩ : ∃ oc, orig.get? j = some oc :=
        ⟨orig.get ⟨j, hjo⟩, List.get?_eq_get hjo⟩
      have hprev : idx? pts ((j : Int) - 1) = some (transformAt orig (j - 1) op) := by
        rw [idx?, if_neg (by omega)]
        have ht : ((j : Int) - 1).toNat = j - 1 := by omega
        rw [ht, hpre (j - 1) (by omega), hop]
        rfl
      have hcur : idx? pts ((j : Int)) = some oc := by
        rw [idx?, if_neg (by omega)]
        have ht : ((j : Int)).toNat = j := by omega
        rw [ht, hsuf j (le_refl j), hoc]
      simp only [checkShapeLoop]
      rw [if_pos hjlen]
      simp only [Nat.cast_zero, sub_zero]
      rw [hprev]
      dsimp only
      rw [hcur]
      dsimp only
      have hmax2 : ∀ v,
          maxGt (if (transformAt orig (j - 1) op).HasDistanceTraveled = true
            then some (transformAt orig (j - 1) op).Dist_traveled else maxD) v = true ↔
          ∃ n, n + 1 < j + 1 ∧ declGtB orig n v = true := by
        intro v
        by_cases hsv : specViolAt orig (j - 1) op = true
        · have hT : transformAt orig (j - 1) op = shapePointReset op := by
            rw [transformAt, if_pos hsv]
          rw [hT]
          have hf : (shapePointReset op).HasDistanceTraveled = false := rfl
          rw [hf, if_neg (by simp)]
          constructor
          · intro h
            obtain ⟨n, hn, hd⟩ := (hmax v).mp h
            exact ⟨n, by omega, hd⟩
          · rintro ⟨n, hn, hd⟩
            apply (hmax v).mpr
            by_cases hnj : n + 1 < j
            · exact ⟨n, hnj, hd⟩
            · have hne : n = j - 1 := by omega
              subst hne
              obtain ⟨hhd, m, hm, hdm⟩ := (specViolAt_iff orig (j - 1) op).mp hsv
              rw [declGtB, hop] at hd
              simp only [Bool.and_eq_true, decide_eq_true_eq] at hd
              exact ⟨m, by omega, declGtB_mono orig m hdm (by omega)⟩
        · have hsv' : specViolAt orig (j - 1) op = false := bool_eq_false hsv
          have hT : transformAt orig (j - 1) op = op := by
            rw [transformAt, hsv']
            rfl
          rw [hT]
          by_cases hhd : op.Has_dist = true
          · have htr : op.HasDistanceTraveled = true := hhd
            rw [htr, if_pos rfl]
            simp only [maxGt, decide_eq_true_eq]
            constructor
            · intro h
              refine ⟨j - 1, by omega, ?_⟩
              rw [declGtB, hop]
              simp only [Bool.and_eq_true, decide_eq_true_eq]
              exact ⟨hhd, h⟩
            · rintro ⟨n, hn, hd⟩
              by_cases hne : n = j - 1
              · subst hne
                rw [declGtB, hop] at hd
                simp only [Bool.and_eq_true, decide_eq_true_eq] at hd
                omega
              · have hno : ¬ declGtB orig n op.Dist_traveled = true := by
                  intro hx
                  have hcon : specViolAt orig (j - 1) op = true :=
                    (specViolAt_iff orig (j - 1) op).mpr ⟨hhd, n, by omega, hx⟩
                  rw [hcon] at hsv'
                  exact absurd hsv' (by simp)
                rw [declGtB] at hd hno
                cases horig : orig.get? n with
                | none =>
                  rw [horig] at hd
                  exact absurd hd (by simp)
                | some q =>
                  rw [horig] at hd hno
                  simp only [Bool.and_eq_true, decide_eq_true_eq] at hd
                  simp only [Bool.and_eq_true, decide_eq_true_eq, not_and, not_lt] at hno
                  have hle := hno hd.1
                  omega
          · have hhd' : op.Has_dist = false := bool_eq_false hhd
            have htr : op.HasDistanceTraveled = false := hhd'
            rw [htr, if_neg (by simp)]
            constructor
            · intro h
              obtain ⟨n, hn, hd⟩ := (hmax v).mp h
              exact ⟨n, by omega, hd⟩
            · rintro ⟨n, hn, hd⟩
              apply (hmax v).mpr
              by_cases hne : n = j - 1
              · subst hne
                rw [declGtB, hop] at hd
                simp only [Bool.and_eq_true, decide_eq_true_eq] at hd
                rw [hhd'] at hd
                exact absurd hd.1 (by simp)
              · exact ⟨n, by omega, hd⟩
      have hcond : (oc.HasDistanceTraveled &&
          maxGt (if (transformAt orig (j - 1) op).HasDistanceTraveled = true
            then some (transformAt orig (j - 1) op).Dist_traveled else maxD)
            oc.Dist_traveled) = specViolAt orig j oc := by
        cases hhc : oc.Has_dist with
        | false =>
          have h1 : oc.HasDistanceTraveled = false := hhc
          rw [h1, Bool.false_and, specViolAt, hhc, Bool.false_and]
        | true =>
          have h1 : oc.HasDistanceTraveled = true := hhc
          rw [h1, Bool.true_and]
          by_cases hm : maxGt (if (transformAt orig (j - 1) op).HasDistanceTraveled = true
              then some (transformAt orig (j - 1) op).Dist_traveled else maxD)
              oc.Dist_traveled = true
          · rw [hm]
            obtain ⟨n, hn, hd⟩ := (hmax2 oc.Dist_traveled).mp hm
            exact ((specViolAt_iff orig j oc).mpr ⟨hhc, n, by omega, hd⟩).symm
          · rw [bool_eq_false hm]
            by_cases hs : specViolAt orig j oc = true
            · exfalso
              obtain ⟨-, n, hn, hd⟩ := (specViolAt_iff orig j oc).mp hs
              exact hm ((hmax2 oc.Dist_traveled).mpr ⟨n, by omega, hd⟩)
            · exact (bool_eq_false hs).symm
      rw [hcond]
      by_cases hviol : specViolAt orig j oc = true
      · rw [hviol, if_pos rfl, hU, if_pos rfl]
        have hti : ((j : Int)).toNat = j := by omega
        rw [hti]
        apply ih (pts.set j { oc with Dist_traveled := 0, Has_dist := false })
          _ (j + 1) (by omega) (by rw [List.length_set]; exact hlen) (by omega)
        · intro n hn
          by_cases hne : n = j
          · subst hne
            rw [List.get?_set_eq_of_lt _ (by omega), hoc]
            simp only [Option.map_some']
            have ht2 : transformAt orig n oc = shapePointReset oc := by
              simp [transformAt, hviol]
            rw [ht2]
            rfl
          · rw [List.get?_set_ne _ _ (by omega)]
            exact hpre n (by omega)
        · intro n hn
          rw [List.get?_set_ne _ _ (by omega)]
          exact hsuf n (by omega)
        · exact hmax2
      · have hviol' : specViolAt orig j oc = false := bool_eq_false hviol
        rw [hviol']
        rw [if_neg (by simp)]
        apply ih pts _ (j + 1) (by omega) hlen (by omega)
        · intro n hn
          by_cases hne : n = j
          · subst hne
            rw [hsuf n (le_refl n), hoc]
            simp only [Option.map_some']
            have ht2 : transformAt orig n oc = oc := by
              rw [transformAt, hviol']
              rfl
            rw [ht2]
          · exact hpre n (by omega)
        · intro n hn
          exact hsuf n (by omega)
        · exact hmax2

/-- C5 (confirmed): with `use_default_on_error` set, the shape check
succeeds and keeps every point: each point that declares a distance
smaller than some preceding point's declared distance is retained with its
distance-traveled reset to 0 and its has-distance flag cleared (this is
exactly `shapeDefaultSpec`), and the point count of the shape is unchanged
by the check. -/
theorem c5_use_default_resets_nonmonotonic_points (shape : Shape) (opt : ParseOptions)
    (hU : opt.UseDefValueOnError = true) :
    checkShapeMeasure shape opt = .ok (shapeDefaultSpec shape.Points) ∧
    (shapeDefaultSpec shape.Points).length = shape.Points.length := by
  constructor
  · rw [checkShapeMeasure]
    apply checkShapeLoop_useDef shape.Points shape.Id opt hU (shape.Points.length + 1)
      shape.Points none 1 (le_refl 1) rfl (by omega)
    · intro n hn
      have hn0 : n = 0 := by omega
      subst hn0
      cases h0 : shape.Points.get? 0 with
      | none => rfl
      | some p =>
        simp only [Option.map_some']
        have ht : transformAt shape.Points 0 p = p := by
          rw [transformAt, specViolAt]
          simp
        rw [ht]
    · intro n hn
      rfl
    · intro v
      constructor
      · intro h
        exact absurd h (by simp [maxGt])
      · rintro ⟨n, hn, -⟩
        omega
  · exact shapeDefaultSpec_length shape.Points

/-- Witness shape for C5. -/
def shW : Shape := ⟨"w", [pt 1 5, pt 2 3]⟩

/-- Witness for C5 at a concrete two-point shape with a violation. -/
theorem c5_witness_concrete_shape :
    checkShapeMeasure shW optsDef = .ok (shapeDefaultSpec shW.Points) ∧
    (shapeDefaultSpec shW.Points).length = shW.Points.length :=
  c5_use_default_resets_nonmonotonic_points shW optsDef rfl

/-- C6 (amended): absence of any required file (agency, stops, routes,
trips, stop-times) makes the parse fail — it can never return a Feed;
absence of an optional file (feed info, shapes, calendar, calendar-dates,
fare attributes, fare rules, frequencies, transfers) makes its stage
complete with no error and no state change. In particular both calendar
stages complete with no error when their files are absent (see the
counterexample: such a parse can succeed), contrary to the original
claim's final conjunct. -/
theorem c6_required_and_optional_files :
    (∀ (opts : ParseOptions) (inp : GtfsInput),
      (inp.agencyF = none ∨ inp.stopsF = none ∨ inp.routesF = none ∨
       inp.tripsF = none ∨ inp.stopTimesF = none) →
      ∀ f : FeedState, Parse opts inp ≠ .ok f) ∧
    (∀ (opts : ParseOptions) (inp : GtfsInput) (s : FeedState),
      (inp.feedInfoF = none → parseFeedInfos opts inp s = .ok s) ∧
      (inp.shapesF = none → parseShapes opts inp s = .ok s) ∧
      (inp.calendarF = none → parseCalendar opts inp s = .ok s) ∧
      (inp.calendarDatesF = none → parseCalendarDates opts inp s = .ok s) ∧
      (inp.fareAttrF = none → parseFareAttributes opts inp s = .ok s) ∧
      (inp.fareRuleF = none → parseFareRules opts inp s = .ok s) ∧
      (inp.frequenciesF = none → parseFrequencies opts inp s = .ok s) ∧
      (inp.transfersF = none → parseTransfers opts inp s = .ok s)) := by
  constructor
  · intro opts inp hreq f hok
    rw [Parse, parseStages] at hok
    obtain ⟨s1, h1, hok⟩ := runChain_ok_cons hok
    obtain ⟨s2, h2, hok⟩ := runChain_ok_cons hok
    obtain ⟨s3, h3, hok⟩ := runChain_ok_cons hok
    obtain ⟨s4, h4, hok⟩ := runChain_ok_cons hok
    obtain ⟨s5, h5, hok⟩ := runChain_ok_cons hok
    obtain ⟨s6, h6, hok⟩ := runChain_ok_cons hok
    obtain ⟨s7, h7, hok⟩ := runChain_ok_cons hok
    obtain ⟨s8, h8, hok⟩ := runChain_ok_cons hok
    obtain ⟨s9, h9, hok⟩ := runChain_ok_cons hok
    obtain ⟨s10, h10, hok⟩ := runChain_ok_cons hok
    rcases hreq with h | h | h | h | h
    · rw [parseAgencies, h] at h1
      exact absurd h1 (by simp)
    · rw [parseStops, h] at h3
      exact absurd h3 (by simp)
    · rw [parseRoutes, h] at h6
      exact absurd h6 (by simp)
    · rw [parseTrips, h] at h9
      exact absurd h9 (by simp)
    · rw [parseStopTimes, h] at h10
      exact absurd h10 (by simp)
  · intro opts inp s
    refine ⟨?_, ?_, ?_, ?_, ?_, ?_, ?_, ?_⟩ <;> intro h
    · rw [parseFeedInfos, h]
    · rw [parseShapes, h]
    · rw [parseCalendar, h]
    · rw [parseCalendarDates, h]
    · rw [parseFareAttributes, h]
    · rw [parseFareRules, h]
    · rw [parseFrequencies, h]
    · rw [parseTransfers, h]

/-- Witness for the amended C6: a missing stops.txt makes the parse fail,
and a missing shapes.txt leaves its stage a successful no-op. -/
theorem c6_witness_required_files :
    Parse optsN inpW1 ≠ .ok NewFeed ∧ parseShapes optsN inpW1 NewFeed = .ok NewFeed :=
  ⟨c6_required_and_optional_files.1 optsN inpW1 (Or.inr (Or.inl rfl)) NewFeed,
   (c6_required_and_optional_files.2 optsN inpW1 NewFeed).2.1 rfl⟩

/-! ## Association-list map lemmas -/

theorem mFind?_mInsert {α : Type} (m : StrMap α) (k : String) (v : α) (x : String) :
    mFind? (mInsert m k v) x = if k = x then some v else mFind? m x := by
  induction m with
  | nil =>
    simp only [mInsert, mFind?]
  | cons p rest ih =>
    obtain ⟨k', v'⟩ := p
    by_cases hk : k' = k
    · subst hk
      simp only [mInsert, if_pos rfl, mFind?]
      by_cases hx : k' = x <;> simp [hx]
    · rw [mInsert, if_neg hk]
      by_cases hx : k' = x
      · subst hx
        rw [mFind?, if_pos rfl, mFind?, if_pos rfl]
        have : ¬ k = k' := fun e => hk e.symm
        rw [if_neg this]
      · rw [mFind?, if_neg hx, mFind?, if_neg hx, ih]

theorem mContains_mInsert_of {α : Type} {m : StrMap α} {x : String} (k : String) (v : α)
    (h : mContains m x = true) : mContains (mInsert m k v) x = true := by
  rw [mContains, mFind?_mInsert]
  by_cases hk : k = x
  · simp [hk]
  · rw [if_neg hk]
    exact h

/-! ## Stage characterisation lemmas: a successful stage is exactly a
successful core run written into the stage's one Feed component. -/

theorem parseAgencies_ok {opts : ParseOptions} {inp : GtfsInput} {s s' : FeedState}
    (h : parseAgencies opts inp s = .ok s') :
    ∃ recs m, inp.agencyF = some recs ∧ agenciesCore opts recs s.Agencies = .ok m ∧
      s' = { s with Agencies := m } := by
  rw [parseAgencies] at h
  cases hf : inp.agencyF with
  | none => rw [hf] at h; exact absurd h (by simp)
  | some recs =>
    rw [hf] at h
    dsimp only at h
    cases hc : agenciesCore opts recs s.Agencies with
    | error e => rw [hc] at h; exact absurd h (by simp)
    | ok m =>
      rw [hc] at h
      dsimp only at h
      simp only [Except.ok.injEq] at h
      exact ⟨recs, m, rfl, hc, h.symm⟩

theorem parseFeedInfos_ok {opts : ParseOptions} {inp : GtfsInput} {s s' : FeedState}
    (h : parseFeedInfos opts inp s = .ok s') :
    (inp.feedInfoF = none ∧ s' = s) ∨
    ∃ recs l, inp.feedInfoF = some recs ∧ feedInfosCore opts recs s.FeedInfos = .ok l ∧
      s' = { s with FeedInfos := l } := by
  rw [parseFeedInfos] at h
  cases hf : inp.feedInfoF with
  | none =>
    rw [hf] at h
    dsimp only at h
    simp only [Except.ok.injEq] at h
    exact Or.inl ⟨rfl, h.symm⟩
  | some recs =>
    rw [hf] at h
    dsimp only at h
    cases hc : feedInfosCore opts recs s.FeedInfos with
    | error e => rw [hc] at h; exact absurd h (by simp)
    | ok l =>
      rw [hc] at h
      dsimp only at h
      simp only [Except.ok.injEq] at h
      exact Or.inr ⟨recs, l, rfl, hc, h.symm⟩

theorem parseStops_ok {opts : ParseOptions} {inp : GtfsInput} {s s' : FeedState}
    (h : parseStops opts inp s = .ok s') :
    ∃ recs m pids m', inp.stopsF = some recs ∧
      stopsPass1 opts recs s.Stops [] = .ok (m, pids) ∧
      linkParents opts pids m = .ok m' ∧
      s' = { s with Stops := m' } := by
  rw [parseStops] at h
  cases hf : inp.stopsF with
  | none => rw [hf] at h; exact absurd h (by simp)
  | some recs =>
    rw [hf] at h
    dsimp only at h
    cases hc : stopsPass1 opts recs s.Stops [] with
    | error e => rw [hc] at h; exact absurd h (by simp)
    | ok pr =>
      obtain ⟨m, pids⟩ := pr
      rw [hc] at h
      dsimp only at h
      cases hl : linkParents opts pids m with
      | error e => rw [hl] at h; exact absurd h (by simp)
      | ok m' =>
        rw [hl] at h
        dsimp only at h
        simp only [Except.ok.injEq] at h
        exact ⟨recs, m, pids, m', rfl, hc, hl, h.symm⟩

theorem parseShapes_ok {opts : ParseOptions} {inp : GtfsInput} {s s' : FeedState}
    (h : parseShapes opts inp s = .ok s') :
    (inp.shapesF = none ∧ s' = s) ∨
    ∃ recs m, inp.shapesF = some recs ∧ shapesCore opts recs s.Shapes = .ok m ∧
      s' = { s with Shapes := m } := by
  rw [parseShapes] at h
  cases hf : inp.shapesF with
  | none =>
    rw [hf] at h
    dsimp only at h
    simp only [Except.ok.injEq] at h
    exact Or.inl ⟨rfl, h.symm⟩
  | some recs =>
    rw [hf] at h
    dsimp only at h
    cases hc : shapesCore opts recs s.Shapes with
    | error e => rw [hc] at h; exact absurd h (by simp)
    | ok m =>
      rw [hc] at h
      dsimp only at h
      simp only [Except.ok.injEq] at h
      exact Or.inr ⟨recs, m, rfl, hc, h.symm⟩

theorem shapeCheckStage_ok {opts : ParseOptions} {s s' : FeedState}
    (h : shapeCheckStage opts s = .ok s') :
    ∃ m, shapeCheckFold opts s.Shapes = .ok m ∧
      s' = { s with Shapes := if opts.DryRun then clearVals m else m } := by
  rw [shapeCheckStage] at h
  cases hc : shapeCheckFold opts s.Shapes with
  | error e => rw [hc] at h; exact absurd h (by simp)
  | ok m =>
    rw [hc] at h
    dsimp only at h
    simp only [Except.ok.injEq] at h
    exact ⟨m, rfl, h.symm⟩

theorem parseRoutes_ok {opts : ParseOptions} {inp : GtfsInput} {s s' : FeedState}
    (h : parseRoutes opts inp s = .ok s') :
    ∃ recs m, inp.routesF = some recs ∧ routesCore opts s.Agencies recs s.Routes = .ok m ∧
      s' = { s with Routes := m } := by
  rw [parseRoutes] at h
  cases hf : inp.routesF with
  | none => rw [hf] at h; exact absurd h (by simp)
  | some recs =>
    rw [hf] at h
    dsimp only at h
    cases hc : routesCore opts s.Agencies recs s.Routes with
    | error e => rw [hc] at h; exact absurd h (by simp)
    | ok m =>
      rw [hc] at h
      dsimp only at h
      simp only [Except.ok.injEq] at h
      exact ⟨recs, m, rfl, hc, h.symm⟩

theorem parseCalendar_ok {opts : ParseOptions} {inp : GtfsInput} {s s' : FeedState}
    (h : parseCalendar opts inp s = .ok s') :
    (inp.calendarF = none ∧ s' = s) ∨
    ∃ recs m, inp.calendarF = some recs ∧ calendarCore opts recs s.Services = .ok m ∧
      s' = { s with Services := m } := by
  rw [parseCalendar] at h
  cases hf : inp.calendarF with
  | none =>
    rw [hf] at h
    dsimp only at h
    simp only [Except.ok.injEq] at h
    exact Or.inl ⟨rfl, h.symm⟩
  | some recs =>
    rw [hf] at h
    dsimp only at h
    cases hc : calendarCore opts recs s.Services with
    | error e => rw [hc] at h; exact absurd h (by simp)
    | ok m =>
      rw [hc] at h
      dsimp only at h
      simp only [Except.ok.injEq] at h
      exact Or.inr ⟨recs, m, rfl, hc, h.symm⟩

theorem parseCalendarDates_ok {opts : ParseOptions} {inp : GtfsInput} {s s' : FeedState}
    (h : parseCalendarDates opts inp s = .ok s') :
    (inp.calendarDatesF = none ∧ s' = s) ∨
    ∃ recs m, inp.calendarDatesF = some recs ∧
      calendarDatesCore opts recs s.Services = .ok m ∧
      s' = { s with Services := m } := by
  rw [parseCalendarDates] at h
  cases hf : inp.calendarDatesF with
  | none =>
    rw [hf] at h
    dsimp only at h
    simp only [Except.ok.injEq] at h
    exact Or.inl ⟨rfl, h.symm⟩
  | some recs =>
    rw [hf] at h
    dsimp only at h
    cases hc : calendarDatesCore opts recs s.Services with
    | error e => rw [hc] at h; exact absurd h (by simp)
    | ok m =>
      rw [hc] at h
      dsimp only at h
      simp only [Except.ok.injEq] at h
      exact Or.inr ⟨recs, m, rfl, hc, h.symm⟩

theorem parseTrips_ok {opts : ParseOptions} {inp : GtfsInput} {s s' : FeedState}
    (h : parseTrips opts inp s = .ok s') :
    ∃ recs m, inp.tripsF = some recs ∧
      tripsCore opts s.Routes s.Services s.Shapes recs s.Trips = .ok m ∧
      s' = { s with Trips := m } := by
  rw [parseTrips] at h
  cases hf : inp.tripsF with
  | none => rw [hf] at h; exact absurd h (by simp)
  | some recs =>
    rw [hf] at h
    dsimp only at h
    cases hc : tripsCore opts s.Routes s.Services s.Shapes recs s.Trips with
    | error e => rw [hc] at h; exact absurd h (by simp)
    | ok m =>
      rw [hc] at h
      dsimp only at h
      simp only [Except.ok.injEq] at h
      exact ⟨recs, m, rfl, hc, h.symm⟩

theorem parseStopTimes_ok {opts : ParseOptions} {inp : GtfsInput} {s s' : FeedState}
    (h : parseStopTimes opts inp s = .ok s') :
    ∃ recs m, inp.stopTimesF = some recs ∧
      stopTimesCore opts s.Stops recs s.Trips = .ok m ∧
      s' = { s with Trips := m } := by
  rw [parseStopTimes] at h
  cases hf : inp.stopTimesF with
  | none => rw [hf] at h; exact absurd h (by simp)
  | some recs =>
    rw [hf] at h
    dsimp only at h
    cases hc : stopTimesCore opts s.Stops recs s.Trips with
    | error e => rw [hc] at h; exact absurd h (by simp)
    | ok m =>
      rw [hc] at h
      dsimp only at h
      simp only [Except.ok.injEq] at h
      exact ⟨recs, m, rfl, hc, h.symm⟩

theorem stopTimeCheckStage_ok {opts : ParseOptions} {s s' : FeedState}
    (h : stopTimeCheckStage opts s = .ok s') :
    ∃ m, stopTimeCheckFold opts s.Trips = .ok m ∧ s' = { s with Trips := m } := by
  rw [stopTimeCheckStage] at h
  cases hc : stopTimeCheckFold opts s.Trips with
  | error e => rw [hc] at h; exact absurd h (by simp)
  | ok m =>
    rw [hc] at h
    dsimp only at h
    simp only [Except.ok.injEq] at h
    exact ⟨m, rfl, h.symm⟩

theorem parseFareAttributes_ok {opts : ParseOptions} {inp : GtfsInput} {s s' : FeedState}
    (h : parseFareAttributes opts inp s = .ok s') :
    (inp.fareAttrF = none ∧ s' = s) ∨
    ∃ recs m, inp.fareAttrF = some recs ∧ fareAttrCore opts recs s.FareAttributes = .ok m ∧
      s' = { s with FareAttributes := m } := by
  rw [parseFareAttributes] at h
  cases hf : inp.fareAttrF with
  | none =>
    rw [hf] at h
    dsimp only at h
    simp only [Except.ok.injEq] at h
    exact Or.inl ⟨rfl, h.symm⟩
  | some recs =>
    rw [hf] at h
    dsimp only at h
    cases hc : fareAttrCore opts recs s.FareAttributes with
    | error e => rw [hc] at h; exact absurd h (by simp)
    | ok m =>
      rw [hc] at h
      dsimp only at h
      simp only [Except.ok.injEq] at h
      exact Or.inr ⟨recs, m, rfl, hc, h.symm⟩

theorem parseFareRules_ok {opts : ParseOptions} {inp : GtfsInput} {s s' : FeedState}
    (h : parseFareRules opts inp s = .ok s') : s' = s := by
  rw [parseFareRules] at h
  cases hf : inp.fareRuleF with
  | none =>
    rw [hf] at h
    dsimp only at h
    simp only [Except.ok.injEq] at h
    exact h.symm
  | some recs =>
    rw [hf] at h
    dsimp only at h
    cases hc : fareRulesCore opts s.FareAttributes s.Routes recs with
    | error e => rw [hc] at h; exact absurd h (by simp)
    | ok u =>
      rw [hc] at h
      dsimp only at h
      simp only [Except.ok.injEq] at h
      exact h.symm

theorem parseFrequencies_ok {opts : ParseOptions} {inp : GtfsInput} {s s' : FeedState}
    (h : parseFrequencies opts inp s = .ok s') : s' = s := by
  rw [parseFrequencies] at h
  cases hf : inp.frequenciesF with
  | none =>
    rw [hf] at h
    dsimp only at h
    simp only [Except.ok.injEq] at h
    exact h.symm
  | some recs =>
    rw [hf] at h
    dsimp only at h
    cases hc : frequenciesCore opts s.Trips recs with
    | error e => rw [hc] at h; exact absurd h (by simp)
    | ok u =>
      rw [hc] at h
      dsimp only at h
      simp only [Except.ok.injEq] at h
      exact h.symm

theorem parseTransfers_ok {opts : ParseOptions} {inp : GtfsInput} {s s' : FeedState}
    (h : parseTransfers opts inp s = .ok s') :
    (inp.transfersF = none ∧ s' = s) ∨
    ∃ recs l, inp.transfersF = some recs ∧ transfersCore opts s.Stops recs s.Transfers = .ok l ∧
      s' = { s with Transfers := l } := by
  rw [parseTransfers] at h
  cases hf : inp.transfersF with
  | none =>
    rw [hf] at h
    dsimp only at h
    simp only [Except.ok.injEq] at h
    exact Or.inl ⟨rfl, h.symm⟩
  | some recs =>
    rw [hf] at h
    dsimp only at h
    cases hc : transfersCore opts s.Stops recs s.Transfers with
    | error e => rw [hc] at h; exact absurd h (by simp)
    | ok l =>
      rw [hc] at h
      dsimp only at h
      simp only [Except.ok.injEq] at h
      exact Or.inr ⟨recs, l, rfl, hc, h.symm⟩

/-! ## Claim C8: parent links of a successful parse resolve -/

/-- Every parent link in the stops table points at a key of the table. -/
def parentsResolved (m : StrMap Stop) : Prop :=
  ∀ id st, mFind? m id = some st → ∀ pid, st.Parent_station = some pid →
    mContains m pid = true

/-- No stop of the table carries a parent link. -/
def parentsNone (m : StrMap Stop) : Prop :=
  ∀ id st, mFind? m id = some st → st.Parent_station = none

/-- The keys of the table are pairwise distinct (true of every table built
by `mInsert`, mirroring a Go map). -/
def mNoDup {α : Type} (m : StrMap α) : Prop := (mKeys m).Nodup

theorem mem_mKeys_mInsert {α : Type} {m : StrMap α} {k x : String} {v : α}
    (h : x ∈ mKeys (mInsert m k v)) : x ∈ mKeys m ∨ x = k := by
  induction m with
  | nil =>
    simp [mInsert, mKeys] at h
    exact Or.inr h
  | cons p rest ih =>
    obtain ⟨k', v'⟩ := p
    by_cases hk : k' = k
    · subst hk
      rw [mInsert, if_pos rfl] at h
      simp only [mKeys, List.map_cons, List.mem_cons] at h ⊢
      rcases h with h | h
      · exact Or.inr h
      · exact Or.inl (Or.inr h)
    · rw [mInsert, if_neg hk] at h
      simp only [mKeys, List.map_cons, List.mem_cons] at h ⊢
      rcases h with h | h
      · exact Or.inl (Or.inl h)
      · rcases ih h with h' | h'
        · exact Or.inl (Or.inr h')
        · exact Or.inr h'

theorem mFind?_eq_none_of_not_mem {α : Type} {m : StrMap α} {x : String}
    (h : x ∉ mKeys m) : mFind? m x = none := by
  induction m with
  | nil => rfl
  | cons p rest ih =>
    obtain ⟨k', v'⟩ := p
    simp only [mKeys, List.map_cons, List.mem_cons, not_or] at h
    rw [mFind?, if_neg (by intro e; exact h.1 e.symm)]
    exact ih h.2

theorem mNoDup_mInsert {α : Type} {m : StrMap α} (k : String) (v : α)
    (h : mNoDup m) : mNoDup (mInsert m k v) := by
  induction m with
  | nil => simp [mNoDup, mInsert, mKeys]
  | cons p rest ih =>
    obtain ⟨k', v'⟩ := p
    rw [mNoDup, mKeys] at h
    simp only [List.map_cons, List.nodup_cons] at h
    by_cases hk : k' = k
    · subst hk
      rw [mNoDup, mInsert, if_pos rfl, mKeys]
      simp only [List.map_cons, List.nodup_cons]
      exact h
    · rw [mNoDup, mInsert, if_neg hk, mKeys]
      simp only [List.map_cons, List.nodup_cons]
      refine ⟨?_, ih h.2⟩
      intro hmem
      rcases mem_mKeys_mInsert hmem with h' | h'
      · exact h.1 h'
      · exact hk h'

theorem mFind?_mErase_self {α : Type} {m : StrMap α} (id : String)
    (h : mNoDup m) : mFind? (mErase m id) id = none := by
  induction m with
  | nil => rfl
  | cons p rest ih =>
    obtain ⟨k', v'⟩ := p
    rw [mNoDup, mKeys] at h
    simp only [List.map_cons, List.nodup_cons] at h
    by_cases hk : k' = id
    · subst hk
      rw [mErase, if_pos rfl]
      exact mFind?_eq_none_of_not_mem h.1
    · rw [mErase, if_neg hk, mFind?, if_neg hk]
      exact ih h.2

theorem createStop_parent {r : StopRec} {opts : ParseOptions} {stop : Stop}
    (h : createStop r opts = some stop) : stop.Parent_station = none := by
  rw [createStop] at h
  by_cases hok : (r.ok || opts.UseDefValueOnError) = true
  · rw [if_pos hok] at h
    simp only [Option.some.injEq] at h
    rw [← h]
  · rw [if_neg hok] at h
    exact absurd h (by simp)

theorem parentsNone_mInsert {m : StrMap Stop} {stop : Stop}
    (h0 : parentsNone m) (hp : stop.Parent_station = none) (k : String) :
    parentsNone (mInsert m k stop) := by
  intro id st hfind
  rw [mFind?_mInsert] at hfind
  by_cases hk : k = id
  · rw [if_pos hk] at hfind
    simp only [Option.some.injEq] at hfind
    rw [← hfind]
    exact hp
  · rw [if_neg hk] at hfind
    exact h0 id st hfind

theorem stopsPass1_inv (opts : ParseOptions) :
    ∀ (recs : List StopRec) (m0 : StrMap Stop) (pids0 : StrMap String)
      (m : StrMap Stop) (pids : StrMap String),
      parentsNone m0 → mNoDup m0 →
      stopsPass1 opts recs m0 pids0 = .ok (m, pids) →
      parentsNone m ∧ mNoDup m := by
  intro recs
  induction recs with
  | nil =>
    intro m0 pids0 m pids h0 hnd h
    rw [stopsPass1] at h
    simp only [Except.ok.injEq, Prod.mk.injEq] at h
    rw [← h.1]
    exact ⟨h0, hnd⟩
  | cons r rest ih =>
    intro m0 pids0 m pids h0 hnd h
    rw [stopsPass1] at h
    cases hcs : createStop r opts with
    | none =>
      rw [hcs] at h
      dsimp only at h
      split at h
      · exact ih m0 pids0 m pids h0 hnd h
      · exact absurd h (by simp)
    | some stop =>
      rw [hcs] at h
      dsimp only at h
      exact ih _ _ m pids
        (parentsNone_mInsert h0 (createStop_parent hcs) stop.Id)
        (mNoDup_mInsert stop.Id stop hnd) h

theorem linkParents_resolved (opts : ParseOptions) :
    ∀ (pids : StrMap String) (m m' : StrMap Stop),
      parentsResolved m → mNoDup m →
      linkParents opts pids m = .ok m' →
      parentsResolved m' := by
  intro pids
  induction pids with
  | nil =>
    intro m m' hres hnd h
    rw [linkParents] at h
    simp only [Except.ok.injEq] at h
    rw [← h]
    exact hres
  | cons p rest ih =>
    obtain ⟨id, pid⟩ := p
    intro m m' hres hnd h
    rw [linkParents] at h
    cases hfp : mFind? m pid with
    | some pst =>
      rw [hfp] at h
      dsimp only at h
      cases hw : writeParent m id (some pid) with
      | none =>
        rw [hw] at h
        dsimp only at h
        exact absurd h (by simp)
      | some m2 =>
        rw [hw] at h
        dsimp only at h
        rw [writeParent] at hw
        cases hfi : mFind? m id with
        | none =>
          rw [hfi] at hw
          exact absurd hw (by simp)
        | some st0 =>
          rw [hfi] at hw
          dsimp only at hw
          simp only [Option.some.injEq] at hw
          have hres2 : parentsResolved m2 := by
            rw [← hw]
            intro x stx hfx pidx hpx
            rw [mFind?_mInsert] at hfx
            by_cases hxk : id = x
            · rw [if_pos hxk] at hfx
              simp only [Option.some.injEq] at hfx
              rw [← hfx] at hpx
              simp only [Option.some.injEq] at hpx
              rw [← hpx]
              exact mContains_mInsert_of id _ (by rw [mContains, hfp]; rfl)
            · rw [if_neg hxk] at hfx
              exact mContains_mInsert_of id _ (hres x stx hfx pidx hpx)
          have hnd2 : mNoDup m2 := by
            rw [← hw]
            exact mNoDup_mInsert id _ hnd
          exact ih m2 m' hres2 hnd2 h
    | none =>
      rw [hfp] at h
      dsimp only at h
      split at h
      · exact ih m m' hres hnd h
      · split at h
        · -- drop branch: the parent write dereferences the erased entry
          cases hw : writeParent (mErase m id) id (some pid) with
          | none =>
            rw [hw] at h
            dsimp only at h
            exact absurd h (by simp)
          | some m2 =>
            exfalso
            rw [writeParent, mFind?_mErase_self id hnd] at hw
            exact absurd hw (by simp)
        · exact absurd h (by simp)

theorem parentsResolved_of_none {m : StrMap Stop} (h : parentsNone m) :
    parentsResolved m := by
  intro id st hf pid hp
  rw [h id st hf] at hp
  exact absurd hp (by simp)

/-- C8 (amended): in every Feed produced by a successful `Parse`, every
stop's parent-station reference either is absent or points to a stop
present in the same Feed. (It may point to the stop itself, see the
counterexample: the linking pass never compares the two ids.) -/
theorem c8_parent_links_resolve (opts : ParseOptions) (inp : GtfsInput) (f : FeedState)
    (hok : Parse opts inp = .ok f) :
    ∀ id st, mFind? f.Stops id = some st → ∀ pid, st.Parent_station = some pid →
      mContains f.Stops pid = true := by
  rw [Parse, parseStages] at hok
  obtain ⟨s1, h1, hok⟩ := runChain_ok_cons hok
  obtain ⟨s2, h2, hok⟩ := runChain_ok_cons hok
  obtain ⟨s3, h3, hok⟩ := runChain_ok_cons hok
  obtain ⟨s4, h4, hok⟩ := runChain_ok_cons hok
  obtain ⟨s5, h5, hok⟩ := runChain_ok_cons hok
  obtain ⟨s6, h6, hok⟩ := runChain_ok_cons hok
  obtain ⟨s7, h7, hok⟩ := runChain_ok_cons hok
  obtain ⟨s8, h8, hok⟩ := runChain_ok_cons hok
  obtain ⟨s9, h9, hok⟩ := runChain_ok_cons hok
  obtain ⟨s10, h10, hok⟩ := runChain_ok_cons hok
  obtain ⟨s11, h11, hok⟩ := runChain_ok_cons hok
  obtain ⟨s12, h12, hok⟩ := runChain_ok_cons hok
  obtain ⟨s13, h13, hok⟩ := runChain_ok_cons hok
  obtain ⟨s14, h14, hok⟩ := runChain_ok_cons hok
  obtain ⟨s15, h15, hok⟩ := runChain_ok_cons hok
  rw [runChain] at hok
  simp only [Except.ok.injEq] at hok
  subst hok
  -- the stops table before stage 3 is empty
  obtain ⟨r1, m1, -, -, e1⟩ := parseAgencies_ok h1
  have es1 : s1.Stops = [] := by rw [e1]; rfl
  have es2 : s2.Stops = [] := by
    rcases parseFeedInfos_ok h2 with ⟨-, e⟩ | ⟨r, l, -, -, e⟩ <;> rw [e] <;> exact es1
  -- stage 3 establishes the invariant
  obtain ⟨recs, m, pids, m', -, hp1, hlink, e3⟩ := parseStops_ok h3
  rw [es2] at hp1
  have hbase : parentsNone ([] : StrMap Stop) := by
    intro id st hf
    exact absurd hf (by simp [mFind?])
  have hnd : mNoDup ([] : StrMap Stop) := List.nodup_nil
  obtain ⟨hnone, hnodup⟩ := stopsPass1_inv opts recs [] [] m pids hbase hnd hp1
  have hres : parentsResolved s3.Stops := by
    rw [e3]
    exact linkParents_resolved opts pids m m' (parentsResolved_of_none hnone) hnodup hlink
  -- stages 4..15 leave the stops table untouched
  have es4 : s4.Stops = s3.Stops := by
    rcases parseShapes_ok h4 with ⟨-, e⟩ | ⟨r, mm, -, -, e⟩ <;> rw [e]
  have es5 : s5.Stops = s4.Stops := by
    obtain ⟨mm, -, e⟩ := shapeCheckStage_ok h5
    rw [e]
  have es6 : s6.Stops = s5.Stops := by
    obtain ⟨r, mm, -, -, e⟩ := parseRoutes_ok h6
    rw [e]
  have es7 : s7.Stops = s6.Stops := by
    rcases parseCalendar_ok h7 with ⟨-, e⟩ | ⟨r, mm, -, -, e⟩ <;> rw [e]
  have es8 : s8.Stops = s7.Stops := by
    rcases parseCalendarDates_ok h8 with ⟨-, e⟩ | ⟨r, mm, -, -, e⟩ <;> rw [e]
  have es9 : s9.Stops = s8.Stops := by
    obtain ⟨r, mm, -, -, e⟩ := parseTrips_ok h9
    rw [e]
  have es10 : s10.Stops = s9.Stops := by
    obtain ⟨r, mm, -, -, e⟩ := parseStopTimes_ok h10
    rw [e]
  have es11 : s11.Stops = s10.Stops := by
    obtain ⟨mm, -, e⟩ := stopTimeCheckStage_ok h11
    rw [e]
  have es12 : s12.Stops = s11.Stops := by
    rcases parseFareAttributes_ok h12 with ⟨-, e⟩ | ⟨r, mm, -, -, e⟩ <;> rw [e]
  have es13 : s13.Stops = s12.Stops := by
    rw [parseFareRules_ok h13]
  have es14 : s14.Stops = s13.Stops := by
    rw [parseFrequencies_ok h14]
  have es15 : s15.Stops = s14.Stops := by
    rcases parseTransfers_ok h15 with ⟨-, e⟩ | ⟨r, l, -, -, e⟩ <;> rw [e]
  rw [es15, es14, es13, es12, es11, es10, es9, es8, es7, es6, es5, es4]
  exact hres

/-- Witness feed for C8: the result of parsing `inpPar`. -/
def feedPar : FeedState :=
  { Stops := [("s1", { Id := "s1", Parent_station := some "s2" }),
              ("s2", { Id := "s2", Parent_station := none })] }

/-- Witness for the amended C8: the parent link written for stop s1
resolves to a stop present in the parsed Feed. -/
theorem c8_witness_parent_links : mContains feedPar.Stops "s2" = true :=
  c8_parent_links_resolve optsN inpPar feedPar rfl "s1"
    { Id := "s1", Parent_station := some "s2" } rfl "s2" rfl

/-! ## Claim C7: dry-run cross-run lemmas -/

theorem bool_eq_of_iff {a b : Bool} (h : a = true ↔ b = true) : a = b := by
  cases a <;> cases b <;> simp_all

theorem mFind?_isSome_iff_mem {α : Type} (m : StrMap α) (x : String) :
    (mFind? m x).isSome = true ↔ x ∈ mKeys m := by
  induction m with
  | nil => simp [mFind?, mKeys]
  | cons p rest ih =>
    obtain ⟨k', v'⟩ := p
    by_cases hk : k' = x
    · subst hk
      simp [mFind?, mKeys]
    · rw [mFind?, if_neg hk]
      simp only [mKeys, List.map_cons, List.mem_cons]
      rw [ih]
      constructor
      · exact Or.inr
      · rintro (h | h)
        · exact absurd h.symm hk
        · exact h

theorem mContains_congr {α β : Type} {m1 : StrMap α} {m2 : StrMap β}
    (h : mKeys m1 = mKeys m2) (x : String) : mContains m1 x = mContains m2 x := by
  apply bool_eq_of_iff
  rw [mContains, mContains, mFind?_isSome_iff_mem, mFind?_isSome_iff_mem, h]

theorem mKeys_mInsert {α : Type} (m : StrMap α) (k : String) (v : α) :
    mKeys (mInsert m k v) = if k ∈ mKeys m then mKeys m else mKeys m ++ [k] := by
  induction m with
  | nil => simp [mInsert, mKeys]
  | cons p rest ih =>
    obtain ⟨k', v'⟩ := p
    by_cases hk : k' = k
    · subst hk
      rw [mInsert, if_pos rfl]
      simp [mKeys]
    · rw [mInsert, if_neg hk]
      simp only [mKeys, List.map_cons] at ih ⊢
      rw [ih]
      by_cases hmem : k ∈ List.map Prod.fst rest
      · rw [if_pos hmem, if_pos (by simp [hmem])]
      · rw [if_neg hmem, if_neg (by simp [hmem]; intro e; exact hk e.symm)]
        simp

theorem mKeys_mInsert_congr {α β : Type} {m1 : StrMap α} {m2 : StrMap β}
    (h : mKeys m1 = mKeys m2) (k : String) (v1 : α) (v2 : β) :
    mKeys (mInsert m1 k v1) = mKeys (mInsert m2 k v2) := by
  rw [mKeys_mInsert, mKeys_mInsert, h]

theorem mem_mInsert {α : Type} {m : StrMap α} {k : String} {v : α} {p : String × α}
    (h : p ∈ mInsert m k v) : p = (k, v) ∨ p ∈ m := by
  induction m with
  | nil =>
    simp [mInsert] at h
    exact Or.inl h
  | cons q rest ih =>
    obtain ⟨k', v'⟩ := q
    by_cases hk : k' = k
    · subst hk
      rw [mInsert, if_pos rfl] at h
      rcases List.mem_cons.mp h with h | h
      · exact Or.inl h
      · exact Or.inr (List.mem_cons.mpr (Or.inr h))
    · rw [mInsert, if_neg hk] at h
      rcases List.mem_cons.mp h with h | h
      · exact Or.inr (List.mem_cons.mpr (Or.inl h))
      · rcases ih h with h' | h'
        · exact Or.inl h'
        · exact Or.inr (List.mem_cons.mpr (Or.inr h'))

theorem vals_none_mInsert {α : Type} {m : StrMap (Option α)} (k : String)
    (h : ∀ p ∈ m, p.2 = none) : ∀ p ∈ mInsert m k none, p.2 = none := by
  intro p hp
  rcases mem_mInsert hp with h' | h'
  · rw [h']
  · exact h p h'

theorem clearVals_keys {α : Type} (m : StrMap (Option α)) :
    mKeys (clearVals m) = mKeys m := by
  induction m with
  | nil => rfl
  | cons p rest ih =>
    obtain ⟨k', v'⟩ := p
    simp only [clearVals, mKeys, List.map_cons] at ih ⊢
    rw [ih]

theorem clearVals_none {α : Type} (m : StrMap (Option α)) :
    ∀ p ∈ clearVals m, p.2 = none := by
  induction m with
  | nil => intro p hp; simp [clearVals] at hp
  | cons q rest ih =>
    obtain ⟨k', v'⟩ := q
    intro p hp
    rcases List.mem_cons.mp hp with h | h
    · rw [h]
    · exact ih p h

theorem agenciesCore_dry (u d : Bool) :
    ∀ (recs : List AgencyRec) (m : StrMap Agency),
      agenciesCore ⟨u, d, true⟩ recs m = agenciesCore ⟨u, d, false⟩ recs m := by
  intro recs
  induction recs with
  | nil => intro m; rfl
  | cons r rest ih =>
    intro m
    simp only [agenciesCore, createAgency]
    by_cases hv : (r.ok || u) = true
    · rw [if_pos hv]
      dsimp only
      exact ih _
    · rw [if_neg hv]
      dsimp only
      by_cases hd : d = true
      · rw [if_pos hd, if_pos hd]
        exact ih _
      · rw [if_neg hd, if_neg hd]

theorem stopsPass1_dry (u d : Bool) :
    ∀ (recs : List StopRec) (m : StrMap Stop) (pids : StrMap String),
      stopsPass1 ⟨u, d, true⟩ recs m pids = stopsPass1 ⟨u, d, false⟩ recs m pids := by
  intro recs
  induction recs with
  | nil => intro m pids; rfl
  | cons r rest ih =>
    intro m pids
    simp only [stopsPass1, createStop]
    by_cases hv : (r.ok || u) = true
    · rw [if_pos hv]
      dsimp only
      exact ih _ _
    · rw [if_neg hv]
      dsimp only
      by_cases hd : d = true
      · rw [if_pos hd, if_pos hd]
        exact ih _ _
      · rw [if_neg hd, if_neg hd]

theorem linkParents_dry (u d : Bool) :
    ∀ (pids : StrMap String) (m : StrMap Stop),
      linkParents ⟨u, d, true⟩ pids m = linkParents ⟨u, d, false⟩ pids m := by
  intro pids
  induction pids with
  | nil => intro m; rfl
  | cons p rest ih =>
    obtain ⟨id, pid⟩ := p
    intro m
    simp only [linkParents]
    cases mFind? m pid with
    | some pst =>
      dsimp only
      cases writeParent m id (some pid) with
      | some m2 => exact ih m2
      | none => rfl
    | none =>
      dsimp only
      by_cases hu : u = true
      · rw [if_pos hu, if_pos hu]
        exact ih m
      · rw [if_neg hu, if_neg hu]
        by_cases hd : d = true
        · rw [if_pos hd, if_pos hd]
          cases writeParent (mErase m id) id (some pid) with
          | some m2 => exact ih m2
          | none => rfl
        · rw [if_neg hd, if_neg hd]

theorem shapesCore_dry (u d : Bool) :
    ∀ (recs : List ShapeRec) (m : StrMap (Option Shape)),
      shapesCore ⟨u, d, true⟩ recs m = shapesCore ⟨u, d, false⟩ recs m := by
  intro recs
  induction recs with
  | nil => intro m; rfl
  | cons r rest ih =>
    intro m
    simp only [shapesCore, createShapePoint]
    by_cases hv : (r.ok || u) = true
    · rw [if_pos hv]
      dsimp only
      exact ih _
    · rw [if_neg hv]
      dsimp only
      by_cases hd : d = true
      · rw [if_pos hd, if_pos hd]
        exact ih _
      · rw [if_neg hd, if_neg hd]

theorem fareAttrCore_dry (u d : Bool) :
    ∀ (recs : List FareAttrRec) (m : StrMap FareAttribute),
      fareAttrCore ⟨u, d, true⟩ recs m = fareAttrCore ⟨u, d, false⟩ recs m := by
  intro recs
  induction recs with
  | nil => intro m; rfl
  | cons r rest ih =>
    intro m
    simp only [fareAttrCore, createFareAttribute]
    by_cases hv : (r.ok || u) = true
    · rw [if_pos hv]
      dsimp only
      exact ih _
    · rw [if_neg hv]
      dsimp only
      by_cases hd : d = true
      · rw [if_pos hd, if_pos hd]
        exact ih _
      · rw [if_neg hd, if_neg hd]

theorem stopTimesCore_dry (u d : Bool) (stops : StrMap Stop) :
    ∀ (recs : List StopTimeRec) (m : StrMap (Option Trip)),
      stopTimesCore ⟨u, d, true⟩ stops recs m = stopTimesCore ⟨u, d, false⟩ stops recs m := by
  intro recs
  induction recs with
  | nil => intro m; rfl
  | cons r rest ih =>
    intro m
    simp only [stopTimesCore, createStopTime]
    by_cases hv : ((r.ok && mContains stops r.stopId && mContains m r.tripId) || u) = true
    · rw [if_pos hv]
      dsimp only
      exact ih _
    · rw [if_neg hv]
      dsimp only
      by_cases hd : d = true
      · rw [if_pos hd, if_pos hd]
        exact ih _
      · rw [if_neg hd, if_neg hd]

theorem feedInfosCore_dry_val (u d : Bool) :
    ∀ (recs : List FeedInfoRec) (l l' : List FeedInfoE),
      feedInfosCore ⟨u, d, true⟩ recs l = .ok l' → l' = l := by
  intro recs
  induction recs with
  | nil =>
    intro l l' h
    rw [feedInfosCore] at h
    simp only [Except.ok.injEq] at h
    exact h.symm
  | cons r rest ih =>
    intro l l' h
    rw [feedInfosCore] at h
    cases hc : createFeedInfo r ⟨u, d, true⟩ with
    | none =>
      rw [hc] at h
      dsimp only at h
      split at h
      · exact ih l l' h
      · exact absurd h (by simp)
    | some fi =>
      rw [hc] at h
      dsimp only at h
      exact ih l l' h

theorem transfersCore_dry_val (u d : Bool) (stops : StrMap Stop) :
    ∀ (recs : List TransferRec) (l l' : List Transfer),
      transfersCore ⟨u, d, true⟩ stops recs l = .ok l' → l' = l := by
  intro recs
  induction recs with
  | nil =>
    intro l l' h
    rw [transfersCore] at h
    simp only [Except.ok.injEq] at h
    exact h.symm
  | cons r rest ih =>
    intro l l' h
    rw [transfersCore] at h
    cases hc : createTransfer r stops ⟨u, d, true⟩ with
    | none =>
      rw [hc] at h
      dsimp only at h
      split at h
      · exact ih l l' h
      · exact absurd h (by simp)
    | some t =>
      rw [hc] at h
      dsimp only at h
      exact ih l l' h

theorem routesCore_pair (u d : Bool) (ags : StrMap Agency) :
    ∀ (recs : List RouteRec) (m1 m2 m1' m2' : StrMap (Option Route)),
      mKeys m1 = mKeys m2 → (∀ p ∈ m1, p.2 = none) →
      routesCore ⟨u, d, true⟩ ags recs m1 = .ok m1' →
      routesCore ⟨u, d, false⟩ ags recs m2 = .ok m2' →
      mKeys m1' = mKeys m2' ∧ ∀ p ∈ m1', p.2 = none := by
  intro recs
  induction recs with
  | nil =>
    intro m1 m2 m1' m2' hk hv h1 h2
    rw [routesCore] at h1 h2
    simp only [Except.ok.injEq] at h1 h2
    rw [← h1, ← h2]
    exact ⟨hk, hv⟩
  | cons r rest ih =>
    intro m1 m2 m1' m2' hk hv h1 h2
    rw [routesCore] at h1 h2
    have hceq : createRoute r ags ⟨u, d, false⟩ = createRoute r ags ⟨u, d, true⟩ := rfl
    cases hc : createRoute r ags ⟨u, d, true⟩ with
    | none =>
      rw [hc] at h1
      rw [hceq, hc] at h2
      dsimp only at h1 h2
      by_cases hd : d = true
      · rw [if_pos hd] at h1 h2
        exact ih _ _ _ _ hk hv h1 h2
      · rw [if_neg hd] at h1
        exact absurd h1 (by simp)
    | some rt =>
      rw [hc] at h1
      rw [hceq, hc] at h2
      dsimp only at h1 h2
      rw [if_pos rfl] at h1
      rw [if_neg (by simp)] at h2
      exact ih _ _ _ _ (mKeys_mInsert_congr hk rt.Id none (some rt))
        (vals_none_mInsert rt.Id hv) h1 h2

theorem calendarCore_pair (u d : Bool) :
    ∀ (recs : List CalRec) (m1 m2 m1' m2' : StrMap (Option Service)),
      mKeys m1 = mKeys m2 → (∀ p ∈ m1, p.2 = none) →
      calendarCore ⟨u, d, true⟩ recs m1 = .ok m1' →
      calendarCore ⟨u, d, false⟩ recs m2 = .ok m2' →
      mKeys m1' = mKeys m2' ∧ ∀ p ∈ m1', p.2 = none := by
  intro recs
  induction recs with
  | nil =>
    intro m1 m2 m1' m2' hk hv h1 h2
    rw [calendarCore] at h1 h2
    simp only [Except.ok.injEq] at h1 h2
    rw [← h1, ← h2]
    exact ⟨hk, hv⟩
  | cons r rest ih =>
    intro m1 m2 m1' m2' hk hv h1 h2
    rw [calendarCore] at h1 h2
    by_cases hok : (r.ok || u) = true
    · by_cases hmem : mContains m1 r.serviceId = true
      · have hmem2 : mContains m2 r.serviceId = true := by
          rw [← mContains_congr hk]
          exact hmem
        rw [show createServiceFromCalendar r m1 ⟨u, d, true⟩ = some none by
          rw [createServiceFromCalendar, if_pos hok, if_pos hmem]] at h1
        rw [show createServiceFromCalendar r m2 ⟨u, d, false⟩ = some none by
          rw [createServiceFromCalendar, if_pos hok, if_pos hmem2]] at h2
        dsimp only at h1 h2
        exact ih _ _ _ _ hk hv h1 h2
      · have hmem2 : ¬ mContains m2 r.serviceId = true := by
          rw [← mContains_congr hk]
          exact hmem
        rw [show createServiceFromCalendar r m1 ⟨u, d, true⟩ = some (some ⟨r.serviceId⟩) by
          rw [createServiceFromCalendar, if_pos hok, if_neg hmem]] at h1
        rw [show createServiceFromCalendar r m2 ⟨u, d, false⟩ = some (some ⟨r.serviceId⟩) by
          rw [createServiceFromCalendar, if_pos hok, if_neg hmem2]] at h2
        dsimp only at h1 h2
        rw [if_pos rfl] at h1
        rw [if_neg (by simp)] at h2
        exact ih _ _ _ _ (mKeys_mInsert_congr hk _ none _)
          (vals_none_mInsert _ hv) h1 h2
    · rw [show createServiceFromCalendar r m1 ⟨u, d, true⟩ = none by
        rw [createServiceFromCalendar, if_neg hok]] at h1
      rw [show createServiceFromCalendar r m2 ⟨u, d, false⟩ = none by
        rw [createServiceFromCalendar, if_neg hok]] at h2
      dsimp only at h1 h2
      by_cases hd : d = true
      · rw [if_pos hd] at h1 h2
        exact ih _ _ _ _ hk hv h1 h2
      · rw [if_neg hd] at h1
        exact absurd h1 (by simp)

theorem calendarDatesCore_pair (u d : Bool) :
    ∀ (recs : List CalRec) (m1 m2 m1' m2' : StrMap (Option Service)),
      mKeys m1 = mKeys m2 → (∀ p ∈ m1, p.2 = none) →
      calendarDatesCore ⟨u, d, true⟩ recs m1 = .ok m1' →
      calendarDatesCore ⟨u, d, false⟩ recs m2 = .ok m2' →
      mKeys m1' = mKeys m2' ∧ ∀ p ∈ m1', p.2 = none := by
  intro recs
  induction recs with
  | nil =>
    intro m1 m2 m1' m2' hk hv h1 h2
    rw [calendarDatesCore] at h1 h2
    simp only [Except.ok.injEq] at h1 h2
    rw [← h1, ← h2]
    exact ⟨hk, hv⟩
  | cons r rest ih =>
    intro m1 m2 m1' m2' hk hv h1 h2
    rw [calendarDatesCore] at h1 h2
    by_cases hok : r.ok = true
    · by_cases hmem : mContains m1 r.serviceId = true
      · have hmem2 : mContains m2 r.serviceId = true := by
          rw [← mContains_congr hk]
          exact hmem
        rw [show createServiceFromCalendarDates r m1 = some none by
          rw [createServiceFromCalendarDates, if_pos hok, if_pos hmem]] at h1
        rw [show createServiceFromCalendarDates r m2 = some none by
          rw [createServiceFromCalendarDates, if_pos hok, if_pos hmem2]] at h2
        dsimp only at h1 h2
        exact ih _ _ _ _ hk hv h1 h2
      · have hmem2 : ¬ mContains m2 r.serviceId = true := by
          rw [← mContains_congr hk]
          exact hmem
        rw [show createServiceFromCalendarDates r m1 = some (some ⟨r.serviceId⟩) by
          rw [createServiceFromCalendarDates, if_pos hok, if_neg hmem]] at h1
        rw [show createServiceFromCalendarDates r m2 = some (some ⟨r.serviceId⟩) by
          rw [createServiceFromCalendarDates, if_pos hok, if_neg hmem2]] at h2
        dsimp only at h1 h2
        rw [if_pos rfl] at h1
        rw [if_neg (by simp)] at h2
        exact ih _ _ _ _ (mKeys_mInsert_congr hk _ none _)
          (vals_none_mInsert _ hv) h1 h2
    · rw [show createServiceFromCalendarDates r m1 = none by
        rw [createServiceFromCalendarDates, if_neg hok]] at h1
      rw [show createServiceFromCalendarDates r m2 = none by
        rw [createServiceFromCalendarDates, if_neg hok]] at h2
      dsimp only at h1 h2
      by_cases hd : d = true
      · rw [if_pos hd] at h1 h2
        exact ih _ _ _ _ hk hv h1 h2
      · rw [if_neg hd] at h1
        exact absurd h1 (by simp)

theorem tripsCore_pair (u d : Bool) {r1 r2 : StrMap (Option Route)}
    {sv1 sv2 : StrMap (Option Service)} {sh1 sh2 : StrMap (Option Shape)}
    (hkr : mKeys r1 = mKeys r2) (hks : mKeys sv1 = mKeys sv2)
    (hksh : mKeys sh1 = mKeys sh2) :
    ∀ (recs : List TripRec) (m : StrMap (Option Trip)),
      tripsCore ⟨u, d, true⟩ r1 sv1 sh1 recs m =
        tripsCore ⟨u, d, false⟩ r2 sv2 sh2 recs m := by
  intro recs
  induction recs with
  | nil => intro m; rfl
  | cons r rest ih =>
    intro m
    have hct : createTrip r r1 sv1 sh1 ⟨u, d, true⟩ = createTrip r r2 sv2 sh2 ⟨u, d, false⟩ := by
      rw [createTrip, createTrip, mContains_congr hkr, mContains_congr hks]
      cases r.shapeId with
      | none => rfl
      | some sid =>
        dsimp only
        rw [mContains_congr hksh]
    simp only [tripsCore]
    rw [hct]
    cases createTrip r r2 sv2 sh2 ⟨u, d, false⟩ with
    | none =>
      dsimp only
      by_cases hd : d = true
      · rw [if_pos hd, if_pos hd]
        exact ih _
      · rw [if_neg hd, if_neg hd]
    | some t =>
      dsimp only
      exact ih _

theorem shapeCheckFold_keys (opts : ParseOptions) :
    ∀ (m m' : StrMap (Option Shape)), shapeCheckFold opts m = .ok m' →
      mKeys m' = mKeys m := by
  intro m
  induction m with
  | nil =>
    intro m' h
    simp only [shapeCheckFold] at h
    simp only [Except.ok.injEq] at h
    rw [← h]
  | cons p rest ih =>
    obtain ⟨id, osh⟩ := p
    intro m' h
    simp only [shapeCheckFold] at h
    cases osh with
    | none =>
      dsimp only at h
      cases hr : shapeCheckFold opts rest with
      | error e => rw [hr] at h; exact absurd h (by simp)
      | ok rest' =>
        rw [hr] at h
        dsimp only at h
        simp only [Except.ok.injEq] at h
        rw [← h]
        exact congrArg (List.cons id) (ih rest' hr)
    | some sh =>
      dsimp only at h
      cases hc : checkShapeMeasure
          { sh with Points := sortByKey (fun p => p.Sequence) sh.Points } opts with
      | oob => rw [hc] at h; exact absurd h (by simp)
      | fatal e l => rw [hc] at h; exact absurd h (by simp)
      | ok pts =>
        rw [hc] at h
        dsimp only at h
        cases hr : shapeCheckFold opts rest with
        | error e => rw [hr] at h; exact absurd h (by simp)
        | ok rest' =>
          rw [hr] at h
          dsimp only at h
          simp only [Except.ok.injEq] at h
          rw [← h]
          exact congrArg (List.cons id) (ih rest' hr)

theorem stopTimeCheckFold_keys (opts : ParseOptions) :
    ∀ (m m' : StrMap (Option Trip)), stopTimeCheckFold opts m = .ok m' →
      mKeys m' = mKeys m := by
  intro m
  induction m with
  | nil =>
    intro m' h
    simp only [stopTimeCheckFold] at h
    simp only [Except.ok.injEq] at h
    rw [← h]
  | cons p rest ih =>
    obtain ⟨id, otr⟩ := p
    intro m' h
    simp only [stopTimeCheckFold] at h
    cases otr with
    | none =>
      dsimp only at h
      cases hr : stopTimeCheckFold opts rest with
      | error e => rw [hr] at h; exact absurd h (by simp)
      | ok rest' =>
        rw [hr] at h
        dsimp only at h
        simp only [Except.ok.injEq] at h
        rw [← h]
        exact congrArg (List.cons id) (ih rest' hr)
    | some tr =>
      dsimp only at h
      cases hc : checkStopTimeMeasure
          { tr with StopTimes := sortByKey (fun st => st.Sequence) tr.StopTimes } opts with
      | oob => rw [hc] at h; exact absurd h (by simp)
      | fatal e l => rw [hc] at h; exact absurd h (by simp)
      | ok sts =>
        rw [hc] at h
        dsimp only at h
        cases hr : stopTimeCheckFold opts rest with
        | error e => rw [hr] at h; exact absurd h (by simp)
        | ok rest' =>
          rw [hr] at h
          dsimp only at h
          simp only [Except.ok.injEq] at h
          rw [← h]
          exact congrArg (List.cons id) (ih rest' hr)

theorem stopTimeCheckFold_dry_none (u d : Bool) :
    ∀ (m m' : StrMap (Option Trip)), stopTimeCheckFold ⟨u, d, true⟩ m = .ok m' →
      ∀ p ∈ m', p.2 = none := by
  intro m
  induction m with
  | nil =>
    intro m' h
    simp only [stopTimeCheckFold] at h
    simp only [Except.ok.injEq] at h
    rw [← h]
    intro p hp
    exact absurd hp (by simp)
  | cons q rest ih =>
    obtain ⟨id, otr⟩ := q
    intro m' h
    simp only [stopTimeCheckFold] at h
    cases otr with
    | none =>
      dsimp only at h
      cases hr : stopTimeCheckFold ⟨u, d, true⟩ rest with
      | error e => rw [hr] at h; exact absurd h (by simp)
      | ok rest' =>
        rw [hr] at h
        dsimp only at h
        simp only [Except.ok.injEq] at h
        rw [← h]
        intro p hp
        rcases List.mem_cons.mp hp with he | he
        · rw [he]
        · exact ih rest' hr p he
    | some tr =>
      dsimp only at h
      cases hc : checkStopTimeMeasure
          { tr with StopTimes := sortByKey (fun st => st.Sequence) tr.StopTimes }
          ⟨u, d, true⟩ with
      | oob => rw [hc] at h; exact absurd h (by simp)
      | fatal e l => rw [hc] at h; exact absurd h (by simp)
      | ok sts =>
        rw [hc] at h
        dsimp only at h
        cases hr : stopTimeCheckFold ⟨u, d, true⟩ rest with
        | error e => rw [hr] at h; exact absurd h (by simp)
        | ok rest' =>
          rw [hr] at h
          dsimp only at h
          simp only [Except.ok.injEq] at h
          rw [← h]
          intro p hp
          rcases List.mem_cons.mp hp with he | he
          · rw [he]
            simp
          · exact ih rest' hr p he

/-- C7 (amended): a dry run retains Agencies, Stops and FareAttributes
exactly as a normal parse does, leaves Transfers and FeedInfos empty, and
keeps Shape/Route/Service/Trip slots (same keys as the normal parse) as
cleared `none` placeholders. -/
theorem c7_dry_run_selective_retention (u d : Bool) (inp : GtfsInput) (fD fW : FeedState)
    (hD : Parse ⟨u, d, true⟩ inp = .ok fD)
    (hW : Parse ⟨u, d, false⟩ inp = .ok fW) :
    fD.Agencies = fW.Agencies ∧ fD.Stops = fW.Stops ∧
    fD.FareAttributes = fW.FareAttributes ∧
    fD.Transfers = [] ∧ fD.FeedInfos = [] ∧
    mKeys fD.Shapes = mKeys fW.Shapes ∧ (∀ p ∈ fD.Shapes, p.2 = none) ∧
    mKeys fD.Routes = mKeys fW.Routes ∧ (∀ p ∈ fD.Routes, p.2 = none) ∧
    mKeys fD.Services = mKeys fW.Services ∧ (∀ p ∈ fD.Services, p.2 = none) ∧
    mKeys fD.Trips = mKeys fW.Trips ∧ (∀ p ∈ fD.Trips, p.2 = none) := by
  rw [Parse, parseStages] at hD hW
  obtain ⟨a1, ha1, hD⟩ := runChain_ok_cons hD
  obtain ⟨a2, ha2, hD⟩ := runChain_ok_cons hD
  obtain ⟨a3, ha3, hD⟩ := runChain_ok_cons hD
  obtain ⟨a4, ha4, hD⟩ := runChain_ok_cons hD
  obtain ⟨a5, ha5, hD⟩ := runChain_ok_cons hD
  obtain ⟨a6, ha6, hD⟩ := runChain_ok_cons hD
  obtain ⟨a7, ha7, hD⟩ := runChain_ok_cons hD
  obtain ⟨a8, ha8, hD⟩ := runChain_ok_cons hD
  obtain ⟨a9, ha9, hD⟩ := runChain_ok_cons hD
  obtain ⟨a10, ha10, hD⟩ := runChain_ok_cons hD
  obtain ⟨a11, ha11, hD⟩ := runChain_ok_cons hD
  obtain ⟨a12, ha12, hD⟩ := runChain_ok_cons hD
  obtain ⟨a13, ha13, hD⟩ := runChain_ok_cons hD
  obtain ⟨a14, ha14, hD⟩ := runChain_ok_cons hD
  obtain ⟨a15, ha15, hD⟩ := runChain_ok_cons hD
  rw [runChain] at hD
  simp only [Except.ok.injEq] at hD
  subst hD
  obtain ⟨b1, hb1, hW⟩ := runChain_ok_cons hW
  obtain ⟨b2, hb2, hW⟩ := runChain_ok_cons hW
  obtain ⟨b3, hb3, hW⟩ := runChain_ok_cons hW
  obtain ⟨b4, hb4, hW⟩ := runChain_ok_cons hW
  obtain ⟨b5, hb5, hW⟩ := runChain_ok_cons hW
  obtain ⟨b6, hb6, hW⟩ := runChain_ok_cons hW
  obtain ⟨b7, hb7, hW⟩ := runChain_ok_cons hW
  obtain ⟨b8, hb8, hW⟩ := runChain_ok_cons hW
  obtain ⟨b9, hb9, hW⟩ := runChain_ok_cons hW
  obtain ⟨b10, hb10, hW⟩ := runChain_ok_cons hW
  obtain ⟨b11, hb11, hW⟩ := runChain_ok_cons hW
  obtain ⟨b12, hb12, hW⟩ := runChain_ok_cons hW
  obtain ⟨b13, hb13, hW⟩ := runChain_ok_cons hW
  obtain ⟨b14, hb14, hW⟩ := runChain_ok_cons hW
  obtain ⟨b15, hb15, hW⟩ := runChain_ok_cons hW
  rw [runChain] at hW
  simp only [Except.ok.injEq] at hW
  subst hW
  -- stage 1: agencies — identical in both runs
  obtain ⟨ra1, mA1, hra1, hca1, ea1⟩ := parseAgencies_ok ha1
  obtain ⟨rb1, mB1, hrb1, hcb1, eb1⟩ := parseAgencies_ok hb1
  rw [hra1] at hrb1
  have hr1 : ra1 = rb1 := Option.some.inj hrb1
  subst hr1
  rw [agenciesCore_dry] at hca1
  rw [hca1] at hcb1
  simp only [Except.ok.injEq] at hcb1
  subst hcb1
  subst ea1
  subst eb1
  -- stage 2: feed infos; under dry run the stage changes nothing
  have ea2 : a2 = { (NewFeed : FeedState) with Agencies := mA1 } := by
    rcases parseFeedInfos_ok ha2 with ⟨-, e⟩ | ⟨r, lf, -, hcore, e⟩
    · exact e
    · rw [e, feedInfosCore_dry_val u d r _ lf hcore]
  subst ea2
  obtain ⟨lB2, eb2⟩ : ∃ x, b2 = { (NewFeed : FeedState) with
      Agencies := mA1
      FeedInfos := x } := by
    rcases parseFeedInfos_ok hb2 with ⟨-, e⟩ | ⟨r, lf, -, -, e⟩
    · exact ⟨[], e.trans rfl⟩
    · exact ⟨lf, e.trans rfl⟩
  subst eb2
  -- stage 3: stops; identical in both runs
  obtain ⟨ra3, mP3, pidsA, mS3, hra3, hpa3, hla3, ea3⟩ := parseStops_ok ha3
  obtain ⟨rb3, mPb3, pidsB, mSb3, hrb3, hpb3, hlb3, eb3⟩ := parseStops_ok hb3
  rw [hra3] at hrb3
  have hr3 : ra3 = rb3 := Option.some.inj hrb3
  subst hr3
  rw [stopsPass1_dry] at hpa3
  have hpa3n : stopsPass1 ⟨u, d, false⟩ ra3 ([] : StrMap Stop) [] = .ok (mP3, pidsA) := hpa3
  have hpb3n : stopsPass1 ⟨u, d, false⟩ ra3 ([] : StrMap Stop) [] = .ok (mPb3, pidsB) := hpb3
  rw [hpa3n] at hpb3n
  simp only [Except.ok.injEq, Prod.mk.injEq] at hpb3n
  obtain ⟨hm3, hp3⟩ := hpb3n
  subst hm3
  subst hp3
  rw [linkParents_dry] at hla3
  rw [hla3] at hlb3
  simp only [Except.ok.injEq] at hlb3
  subst hlb3
  subst ea3
  subst eb3
  -- stage 4: shapes; identical contents in both runs
  obtain ⟨mSh4, ea4, eb4⟩ : ∃ x,
      a4 = { (NewFeed : FeedState) with
        Agencies := mA1
        Stops := mS3
        Shapes := x } ∧
      b4 = { (NewFeed : FeedState) with
        Agencies := mA1
        FeedInfos := lB2
        Stops := mS3
        Shapes := x } := by
    rcases parseShapes_ok ha4 with ⟨hn, e⟩ | ⟨r, mf, hr, hcore, e⟩
    · rcases parseShapes_ok hb4 with ⟨-, e2⟩ | ⟨r2, mf2, hr2, -, -⟩
      · exact ⟨[], e.trans rfl, e2.trans rfl⟩
      · rw [hn] at hr2
        exact absurd hr2 (by simp)
    · rcases parseShapes_ok hb4 with ⟨hn2, -⟩ | ⟨r2, mf2, hr2, hcore2, e2⟩
      · rw [hn2] at hr
        exact absurd hr (by simp)
      · rw [hr] at hr2
        have hrr : r = r2 := Option.some.inj hr2
        subst hrr
        rw [shapesCore_dry] at hcore
        have hcA : shapesCore ⟨u, d, false⟩ r ([] : StrMap (Option Shape)) = .ok mf := hcore
        have hcB : shapesCore ⟨u, d, false⟩ r ([] : StrMap (Option Shape)) = .ok mf2 := hcore2
        rw [hcA] at hcB
        simp only [Except.ok.injEq] at hcB
        subst hcB
        exact ⟨mf, e.trans rfl, e2.trans rfl⟩
  subst ea4
  subst eb4
  -- stage 5: shape check; dry run clears the slot values
  obtain ⟨mf5a, hfold5a, ea5⟩ := shapeCheckStage_ok ha5
  obtain ⟨mf5b, hfold5b, eb5⟩ := shapeCheckStage_ok hb5
  subst ea5
  subst eb5
  have hf5a : shapeCheckFold ⟨u, d, true⟩ mSh4 = .ok mf5a := hfold5a
  have hf5b : shapeCheckFold ⟨u, d, false⟩ mSh4 = .ok mf5b := hfold5b
  have hShK : mKeys (clearVals mf5a) = mKeys mf5b :=
    (clearVals_keys mf5a).trans ((shapeCheckFold_keys _ _ _ hf5a).trans
      (shapeCheckFold_keys _ _ _ hf5b).symm)
  -- stage 6: routes; same keys, dry values nil
  obtain ⟨ra6, mR6a, hra6, hca6, ea6⟩ := parseRoutes_ok ha6
  obtain ⟨rb6, mR6b, hrb6, hcb6, eb6⟩ := parseRoutes_ok hb6
  rw [hra6] at hrb6
  have hr6 : ra6 = rb6 := Option.some.inj hrb6
  subst hr6
  have hca6n : routesCore ⟨u, d, true⟩ mA1 ra6 ([] : StrMap (Option Route)) = .ok mR6a := hca6
  have hcb6n : routesCore ⟨u, d, false⟩ mA1 ra6 ([] : StrMap (Option Route)) = .ok mR6b := hcb6
  obtain ⟨hRtK6, hRtN6⟩ := routesCore_pair u d mA1 ra6 [] [] mR6a mR6b rfl
    (by intro p hp; simp at hp) hca6n hcb6n
  subst ea6
  subst eb6
  -- stage 7: calendar; same service keys, dry values nil
  obtain ⟨mSvA7, mSvB7, ea7, eb7, hSvK7, hSvN7⟩ : ∃ xa xb,
      a7 = { (NewFeed : FeedState) with
        Agencies := mA1
        Stops := mS3
        Shapes := clearVals mf5a
        Routes := mR6a
        Services := xa } ∧
      b7 = { (NewFeed : FeedState) with
        Agencies := mA1
        FeedInfos := lB2
        Stops := mS3
        Shapes := mf5b
        Routes := mR6b
        Services := xb } ∧
      mKeys xa = mKeys xb ∧ (∀ p ∈ xa, p.2 = none) := by
    rcases parseCalendar_ok ha7 with ⟨hn, e⟩ | ⟨r, mf, hr, hcore, e⟩
    · rcases parseCalendar_ok hb7 with ⟨-, e2⟩ | ⟨r2, mf2, hr2, -, -⟩
      · exact ⟨[], [], e.trans rfl, e2.trans rfl, rfl, by intro p hp; simp at hp⟩
      · rw [hn] at hr2
        exact absurd hr2 (by simp)
    · rcases parseCalendar_ok hb7 with ⟨hn2, -⟩ | ⟨r2, mf2, hr2, hcore2, e2⟩
      · rw [hn2] at hr
        exact absurd hr (by simp)
      · rw [hr] at hr2
        have hrr : r = r2 := Option.some.inj hr2
        subst hrr
        have hcA : calendarCore ⟨u, d, true⟩ r ([] : StrMap (Option Service)) = .ok mf := hcore
        have hcB : calendarCore ⟨u, d, false⟩ r ([] : StrMap (Option Service)) = .ok mf2 :=
          hcore2
        obtain ⟨hk, hv⟩ := calendarCore_pair u d r [] [] mf mf2 rfl
          (by intro p hp; simp at hp) hcA hcB
        exact ⟨mf, mf2, e.trans rfl, e2.trans rfl, hk, hv⟩
  subst ea7
  subst eb7
  -- stage 8: calendar dates; same service keys, dry values nil
  obtain ⟨mSvA8, mSvB8, ea8, eb8, hSvK8, hSvN8⟩ : ∃ xa xb,
      a8 = { (NewFeed : FeedState) with
        Agencies := mA1
        Stops := mS3
        Shapes := clearVals mf5a
        Routes := mR6a
        Services := xa } ∧
      b8 = { (NewFeed : FeedState) with
        Agencies := mA1
        FeedInfos := lB2
        Stops := mS3
        Shapes := mf5b
        Routes := mR6b
        Services := xb } ∧
      mKeys xa = mKeys xb ∧ (∀ p ∈ xa, p.2 = none) := by
    rcases parseCalendarDates_ok ha8 with ⟨hn, e⟩ | ⟨r, mf, hr, hcore, e⟩
    · rcases parseCalendarDates_ok hb8 with ⟨-, e2⟩ | ⟨r2, mf2, hr2, -, -⟩
      · exact ⟨mSvA7, mSvB7, e.trans rfl, e2.trans rfl, hSvK7, hSvN7⟩
      · rw [hn] at hr2
        exact absurd hr2 (by simp)
    · rcases parseCalendarDates_ok hb8 with ⟨hn2, -⟩ | ⟨r2, mf2, hr2, hcore2, e2⟩
      · rw [hn2] at hr
        exact absurd hr (by simp)
      · rw [hr] at hr2
        have hrr : r = r2 := Option.some.inj hr2
        subst hrr
        have hcA : calendarDatesCore ⟨u, d, true⟩ r mSvA7 = .ok mf := hcore
        have hcB : calendarDatesCore ⟨u, d, false⟩ r mSvB7 = .ok mf2 := hcore2
        obtain ⟨hk, hv⟩ := calendarDatesCore_pair u d r mSvA7 mSvB7 mf mf2 hSvK7 hSvN7 hcA hcB
        exact ⟨mf, mf2, e.trans rfl, e2.trans rfl, hk, hv⟩
  subst ea8
  subst eb8
  -- stage 9: trips; same keys inserted in both runs
  obtain ⟨ra9, mT9a, hra9, hca9, ea9⟩ := parseTrips_ok ha9
  obtain ⟨rb9, mT9b, hrb9, hcb9, eb9⟩ := parseTrips_ok hb9
  rw [hra9] at hrb9
  have hr9 : ra9 = rb9 := Option.some.inj hrb9
  subst hr9
  have hca9n : tripsCore ⟨u, d, true⟩ mR6a mSvA8 (clearVals mf5a) ra9
      ([] : StrMap (Option Trip)) = .ok mT9a := hca9
  have hcb9n : tripsCore ⟨u, d, false⟩ mR6b mSvB8 mf5b ra9
      ([] : StrMap (Option Trip)) = .ok mT9b := hcb9
  rw [tripsCore_pair u d hRtK6 hSvK8 hShK] at hca9n
  rw [hca9n] at hcb9n
  simp only [Except.ok.injEq] at hcb9n
  subst hcb9n
  subst ea9
  subst eb9
  -- stage 10: stop times; identical in both runs
  obtain ⟨ra10, mT10a, hra10, hca10, ea10⟩ := parseStopTimes_ok ha10
  obtain ⟨rb10, mT10b, hrb10, hcb10, eb10⟩ := parseStopTimes_ok hb10
  rw [hra10] at hrb10
  have hr10 : ra10 = rb10 := Option.some.inj hrb10
  subst hr10
  have hca10n : stopTimesCore ⟨u, d, true⟩ mS3 ra10 mT9a = .ok mT10a := hca10
  have hcb10n : stopTimesCore ⟨u, d, false⟩ mS3 ra10 mT9a = .ok mT10b := hcb10
  rw [stopTimesCore_dry] at hca10n
  rw [hca10n] at hcb10n
  simp only [Except.ok.injEq] at hcb10n
  subst hcb10n
  subst ea10
  subst eb10
  -- stage 11: stop time check; the dry fold clears the trip slots
  obtain ⟨mf11a, hfold11a, ea11⟩ := stopTimeCheckStage_ok ha11
  obtain ⟨mf11b, hfold11b, eb11⟩ := stopTimeCheckStage_ok hb11
  subst ea11
  subst eb11
  have hf11a : stopTimeCheckFold ⟨u, d, true⟩ mT10a = .ok mf11a := hfold11a
  have hf11b : stopTimeCheckFold ⟨u, d, false⟩ mT10a = .ok mf11b := hfold11b
  have hTrK : mKeys mf11a = mKeys mf11b :=
    (stopTimeCheckFold_keys _ _ _ hf11a).trans (stopTimeCheckFold_keys _ _ _ hf11b).symm
  have hTrN : ∀ p ∈ mf11a, p.2 = none := stopTimeCheckFold_dry_none u d _ _ hf11a
  -- stage 12: fare attributes; identical in both runs
  obtain ⟨mFA12, ea12, eb12⟩ : ∃ x,
      a12 = { (NewFeed : FeedState) with
        Agencies := mA1
        Stops := mS3
        Shapes := clearVals mf5a
        Routes := mR6a
        Services := mSvA8
        Trips := mf11a
        FareAttributes := x } ∧
      b12 = { (NewFeed : FeedState) with
        Agencies := mA1
        FeedInfos := lB2
        Stops := mS3
        Shapes := mf5b
        Routes := mR6b
        Services := mSvB8
        Trips := mf11b
        FareAttributes := x } := by
    rcases parseFareAttributes_ok ha12 with ⟨hn, e⟩ | ⟨r, mf, hr, hcore, e⟩
    · rcases parseFareAttributes_ok hb12 with ⟨-, e2⟩ | ⟨r2, mf2, hr2, -, -⟩
      · exact ⟨[], e.trans rfl, e2.trans rfl⟩
      · rw [hn] at hr2
        exact absurd hr2 (by simp)
    · rcases parseFareAttributes_ok hb12 with ⟨hn2, -⟩ | ⟨r2, mf2, hr2, hcore2, e2⟩
      · rw [hn2] at hr
        exact absurd hr (by simp)
      · rw [hr] at hr2
        have hrr : r = r2 := Option.some.inj hr2
        subst hrr
        rw [fareAttrCore_dry] at hcore
        have hcA : fareAttrCore ⟨u, d, false⟩ r ([] : StrMap FareAttribute) = .ok mf := hcore
        have hcB : fareAttrCore ⟨u, d, false⟩ r ([] : StrMap FareAttribute) = .ok mf2 := hcore2
        rw [hcA] at hcB
        simp only [Except.ok.injEq] at hcB
        subst hcB
        exact ⟨mf, e.trans rfl, e2.trans rfl⟩
  subst ea12
  subst eb12
  -- stages 13 and 14 leave the state unchanged
  have ea13 := parseFareRules_ok ha13
  subst ea13
  have eb13 := parseFareRules_ok hb13
  subst eb13
  have ea14 := parseFrequencies_ok ha14
  subst ea14
  have eb14 := parseFrequencies_ok hb14
  subst eb14
  -- stage 15: transfers; the dry run appends nothing
  have ea15 : a15 = { (NewFeed : FeedState) with
      Agencies := mA1
      Stops := mS3
      Shapes := clearVals mf5a
      Routes := mR6a
      Services := mSvA8
      Trips := mf11a
      FareAttributes := mFA12 } := by
    rcases parseTransfers_ok ha15 with ⟨-, e⟩ | ⟨r, l, -, hcore, e⟩
    · exact e.trans rfl
    · have hcA : transfersCore ⟨u, d, true⟩ mS3 r ([] : List Transfer) = .ok l := hcore
      have hl : l = [] := transfersCore_dry_val u d mS3 r [] l hcA
      subst hl
      exact e.trans rfl
  subst ea15
  obtain ⟨lB15, eb15⟩ : ∃ x,
      b15 = { (NewFeed : FeedState) with
        Agencies := mA1
        FeedInfos := lB2
        Stops := mS3
        Shapes := mf5b
        Routes := mR6b
        Services := mSvB8
        Trips := mf11b
        FareAttributes := mFA12
        Transfers := x } := by
    rcases parseTransfers_ok hb15 with ⟨-, e⟩ | ⟨r, l, -, -, e⟩
    · exact ⟨[], e.trans rfl⟩
    · exact ⟨l, e.trans rfl⟩
  subst eb15
  exact ⟨rfl, rfl, rfl, rfl, rfl, hShK, clearVals_none mf5a,
    hRtK6, hRtN6, hSvK8, hSvN8, hTrK, hTrN⟩

/-- Witness for C7 (amended): a feed with one route, parsed dry and
normally; the dry Feed holds the route key with a cleared slot. -/
theorem c7_witness_dry_run :
    Parse ⟨false, false, true⟩ inpRt = .ok { Routes := [("r1", none)] } ∧
    Parse ⟨false, false, false⟩ inpRt = .ok { Routes := [("r1", some { Id := "r1" })] } ∧
    mKeys ({ Routes := [("r1", none)] } : FeedState).Routes =
      mKeys ({ Routes := [("r1", some { Id := "r1" })] } : FeedState).Routes ∧
    ∀ p ∈ ({ Routes := [("r1", none)] } : FeedState).Routes, p.2 = none :=
  ⟨rfl, rfl,
    (c7_dry_run_selective_retention false false inpRt
        { Routes := [("r1", none)] } { Routes := [("r1", some { Id := "r1" })] }
        rfl rfl).2.2.2.2.2.2.2.1,
    (c7_dry_run_selective_retention false false inpRt
        { Routes := [("r1", none)] } { Routes := [("r1", some { Id := "r1" })] }
        rfl rfl).2.2.2.2.2.2.2.2.1⟩
